import Mathlib

/-!
# Verification of the napov2 batch-retry orchestrator and reduction pipeline

Shallow embedding of the JavaScript sources:
* `smartAnalyzeProcessor` (ERROR_FILTERS, removeDuplicateCompanies,
  removeDuplicateDrivers, filterErrorMessages, removeEmptyDrivers,
  processSmartAnalyzeResults),
* `fortexBatch` (smartAnalyzeForOrigin fan-out),
* `originAnalysisWithRetry` (runOriginAnalysisWithRetry).

JavaScript objects that are shared between the three result arrays
(`allResults` holds the very same company objects as `successfulResults`
and `failedResults`) are modelled with an explicit store (heap): the
result arrays are lists of references (indices) into a list of company
records, and mutation of a company is a `List.set` on the store.
Asynchrony is resolved into deterministic oracles: the per-attempt
pipeline outcome and the per-company fetch outcome are function
parameters.  Wall-clock fields (timestamps, execution times, rates) and
verbose logging are omitted: no other code reads them.
-/

namespace Napo

/-- A log record: only `errorMessage` is inspected by the pipeline
(`none` models a missing/undefined field). -/
structure Log where
  errorMessage : Option String
deriving DecidableEq

/-- A driver record nested in a company's `data`.  `logs = none` models a
missing or non-array `logs` field. -/
structure Driver where
  driverName : Option String
  driverId : Option String
  logs : Option (List Log)
deriving DecidableEq

/-- Tag of an entity result (the `status` field of the records built by
the batch fetcher and the individual-retry loop). -/
inductive CStatus where
  | success
  | failed
deriving DecidableEq

/-- A per-company entity result record.  `data = none` models a missing
`data` field (e.g. on failure records). -/
structure Company where
  status : CStatus
  companyName : Option String
  companyId : Option String
  data : Option (List Driver)
  error : Option String
deriving DecidableEq

/-- The company used when a reference does not point into the store;
never reachable from states built by the embedded code. -/
def defaultCompany : Company :=
  { status := .failed, companyName := none, companyId := none, data := none, error := none }

/-- JavaScript truthiness of a possibly-missing string: `undefined`,
`null` and the empty string are falsy. -/
def truthy : Option String → Bool
  | none => false
  | some s => s ≠ ""

/-- JavaScript `a || b` on possibly-missing strings. -/
def jsOr (a b : Option String) : Option String :=
  if truthy a then a else b

/-- Company identity key: `company.companyId || company.companyName`. -/
def companyKey (c : Company) : Option String :=
  jsOr c.companyId c.companyName

/-- Driver identity key: `driver.driverName || driver.driverId`. -/
def driverKey (d : Driver) : Option String :=
  jsOr d.driverName d.driverId

/-! ## ERROR_FILTERS (smartAnalyzeProcessor lines 6-117) -/

/-- One entry of `ERROR_FILTERS`: a display name, the predicate over the
log's `errorMessage`, and the statistics key. -/
structure ErrorFilter where
  name : String
  matchFn : Option String → Bool
  key : String

/-- JavaScript whitespace trimmed by `String.prototype.trim` (the error
messages are ASCII, so the ASCII whitespace characters suffice). -/
def jsWS (c : Char) : Bool :=
  c = ' ' || c = '\t' || c = '\n' || c = '\r' || c = '\x0b' || c = '\x0c'

/-- `s.trim()`: strip leading and trailing whitespace. -/
def jsTrim (s : String) : String :=
  String.mk (((s.data.dropWhile jsWS).reverse.dropWhile jsWS).reverse)

/-- `a.startsWith(b)` on the underlying character lists. -/
def isPrefixList : List Char → List Char → Bool
  | [], _ => true
  | _ :: _, [] => false
  | a :: as, b :: bs => a = b && isPrefixList as bs

/-- `(errorMessage) => errorMessage && errorMessage.trim() === t`
(a missing, null or empty message is falsy, hence no match). -/
def trimEq (t : String) : Option String → Bool
  | none => false
  | some s => s ≠ "" && jsTrim s == t

/-- `(errorMessage) => errorMessage && errorMessage.trim().startsWith(t)`. -/
def trimStartsWith (t : String) : Option String → Bool
  | none => false
  | some s => s ≠ "" && isPrefixList t.data (jsTrim s).data

/-- The ordered filter-rule list of the processor. -/
def ERROR_FILTERS : List ErrorFilter := [
  ⟨"SEQUENTIAL ID BREAK WARNING", trimEq "SEQUENTIAL ID BREAK WARNING", "sequentialIdBreak"⟩,
  ⟨"ENGINE HOURS HAVE CHANGED AFTER SHUT DOWN WARNING",
    trimEq "ENGINE HOURS HAVE CHANGED AFTER SHUT DOWN WARNING", "engineHoursAfterShutdown"⟩,
  ⟨"ODOMETER ERROR", trimEq "ODOMETER ERROR", "odometerError"⟩,
  ⟨"DIAGNOSTIC EVENT", trimEq "DIAGNOSTIC EVENT", "diagnosticEvent"⟩,
  ⟨"LOCATION CHANGED ERROR", trimEq "LOCATION CHANGED ERROR", "locationChangedError"⟩,
  ⟨"INCORRECT INTERMEDIATE PLACEMENT ERROR",
    trimEq "INCORRECT INTERMEDIATE PLACEMENT ERROR", "incorrectIntermediatePlacementError"⟩,
  ⟨"ENGINE HOURS WARNING", trimEq "ENGINE HOURS WARNING", "engineHoursWarning"⟩,
  ⟨"NO SHUT DOWN ERROR", trimEq "NO SHUT DOWN ERROR", "noShutdownError"⟩,
  ⟨"EXCESSIVE LOG IN WARNING", trimEq "EXCESSIVE LOG IN WARNING", "excessiveLogInWarning"⟩,
  ⟨"EXCESSIVE LOG OUT WARNING", trimEq "EXCESSIVE LOG OUT WARNING", "excessiveLogOutWarning"⟩,
  ⟨"TWO IDENTICAL STATUSES ERROR", trimEq "TWO IDENTICAL STATUSES ERROR", "twoIdenticalStatusesError"⟩,
  ⟨"DRIVING ORIGIN WARNING", trimEq "DRIVING ORIGIN WARNING", "drivingOriginWarning"⟩,
  ⟨"NO DATA IN ODOMETER OR ENGINE HOURS ERROR",
    trimEq "NO DATA IN ODOMETER OR ENGINE HOURS ERROR", "noDataInOdometerOrEngineHours"⟩,
  ⟨"LOCATION ERROR", trimEq "LOCATION ERROR", "locationError"⟩,
  ⟨"LOCATION DID NOT CHANGE WARNING", trimEq "LOCATION DID NOT CHANGE WARNING", "locationDidNotChangeWarning"⟩,
  ⟨"MISSING INTERMEDIATE ERROR", trimEq "MISSING INTERMEDIATE ERROR", "missingIntermediateError"⟩,
  ⟨"INCORRECT STATUS PLACEMENT ERROR",
    trimEq "INCORRECT STATUS PLACEMENT ERROR", "incorrectStatusPlacementError"⟩,
  ⟨"THE SPEED WAS MUCH HIGHER THAN THE SPEED LIMIT IN",
    trimStartsWith "THE SPEED WAS MUCH HIGHER THAN THE SPEED LIMIT IN", "speedMuchHigherThanLimit"⟩,
  ⟨"THE SPEED WAS HIGHER THAN THE SPEED",
    trimStartsWith "THE SPEED WAS HIGHER THAN THE SPEED", "speedHigherThanLimit"⟩,
  ⟨"EVENT HAS MANUAL LOCATION", trimEq "EVENT HAS MANUAL LOCATION", "eventHasManualLocation"⟩,
  ⟨"NO POWER UP ERROR", trimEq "NO POWER UP ERROR", "noPowerUpError"⟩,
  ⟨"UNIDENTIFIED DRIVER EVENT", trimEq "UNIDENTIFIED DRIVER EVENT", "unidentifiedDriverEvent"⟩]

/-! ## Store (heap of company objects) -/

/-- The heap: result arrays hold indices into this list, mirroring the
sharing of company objects between `successfulResults`, `failedResults`
and `allResults` in the JavaScript data. -/
abbrev Store := List Company

def getCompany (store : Store) (r : Nat) : Company :=
  store.getD r defaultCompany

def setCompany (store : Store) (r : Nat) (c : Company) : Store :=
  store.set r c

/-! ## removeDuplicateCompanies (processor lines 124-137) -/

/-- The `Map`-based first-occurrence-wins loop: keep a reference when its
company's key has not been seen yet. -/
def removeDuplicateCompaniesGo (store : Store) : List (Option String) → List Nat → List Nat
  | _, [] => []
  | seen, r :: rs =>
    let k := companyKey (getCompany store r)
    if k ∈ seen then removeDuplicateCompaniesGo store seen rs
    else r :: removeDuplicateCompaniesGo store (k :: seen) rs

/-- `removeDuplicateCompanies(results)`: drop later companies whose key
(`companyId || companyName`) was already seen; survivors keep first-seen
order (JavaScript `Map` insertion order). -/
def removeDuplicateCompanies (store : Store) (refs : List Nat) : List Nat :=
  if refs.isEmpty then refs else removeDuplicateCompaniesGo store [] refs

/-! ## removeDuplicateDrivers (processor lines 143-166) -/

/-- Merge a duplicate driver's logs onto the retained record:
`if (driver.logs && existing.logs) existing.logs = [...existing.logs, ...driver.logs]`
(arrays are always truthy, so the guard is presence of both fields). -/
def mergeLogs (existing d : Driver) : Driver :=
  match d.logs, existing.logs with
  | some dl, some el => { existing with logs := some (el ++ dl) }
  | _, _ => existing

/-- Insert a driver into the accumulated unique-driver list: merge into
the first entry with the same key, else append at the end (JavaScript
`Map` keeps first-seen positions). -/
def insertDriver : List Driver → Driver → List Driver
  | [], d => [d]
  | e :: es, d =>
    if driverKey e = driverKey d then mergeLogs e d :: es
    else e :: insertDriver es d

/-- Per-company body of `removeDuplicateDrivers`: rebuild `data` from the
unique-driver map (skipped when `data` is missing). -/
def removeDuplicateDriversC (c : Company) : Company :=
  match c.data with
  | none => c
  | some ds => { c with data := some (ds.foldl insertDriver []) }

def removeDuplicateDriversGo : Store → List Nat → Store
  | store, [] => store
  | store, r :: rs =>
    removeDuplicateDriversGo (setCompany store r (removeDuplicateDriversC (getCompany store r))) rs

/-- `removeDuplicateDrivers(results)`: in-place dedup of each company's
drivers; `none` models the `if (!results) return` guard. -/
def removeDuplicateDrivers (store : Store) (refs : Option (List Nat)) : Store :=
  match refs with
  | none => store
  | some rs => removeDuplicateDriversGo store rs

/-! ## Statistics and filterErrorMessages (processor lines 173-202) -/

/-- The in-place statistics accumulator.  `warningsRemoved` is the
per-rule counter object, kept as an association list with the filter
keys in declared order. -/
structure Stats where
  totalLogsProcessed : Nat
  totalLogsRemoved : Nat
  warningsRemoved : List (String × Nat)
  companiesProcessed : Nat
  driversProcessed : Nat
deriving DecidableEq

/-- The zero-initialised statistics built at the top of
`processSmartAnalyzeResults` (lines 237-248). -/
def initStats : Stats :=
  { totalLogsProcessed := 0
    totalLogsRemoved := 0
    warningsRemoved := ERROR_FILTERS.map (fun f => (f.key, 0))
    companiesProcessed := 0
    driversProcessed := 0 }

/-- `stats.warningsRemoved[key]++` (every filter key is present in the
initialised object, and filter keys are pairwise distinct). -/
def bumpKey (l : List (String × Nat)) (k : String) : List (String × Nat) :=
  l.map (fun p => if p.1 = k then (p.1, p.2 + 1) else p)

/-- Statistics update on removing one log attributed to filter key `k`. -/
def bumpRemoved (st : Stats) (k : String) : Stats :=
  { st with
    warningsRemoved := bumpKey st.warningsRemoved k
    totalLogsRemoved := st.totalLogsRemoved + 1 }

/-- The `driver.logs.filter(...)` loop: for each log, the first filter in
`ERROR_FILTERS` that matches removes the log and takes the credit; a log
matching no filter is kept. -/
def filterLogsGo : List Log → Stats → List Log × Stats
  | [], st => ([], st)
  | l :: ls, st =>
    match ERROR_FILTERS.find? (fun f => f.matchFn l.errorMessage) with
    | some f => filterLogsGo ls (bumpRemoved st f.key)
    | none =>
      let r := filterLogsGo ls st
      (l :: r.1, r.2)

/-- Per-driver body of `filterErrorMessages`: skip drivers without a
`logs` array, else count the driver, add the original length to
`totalLogsProcessed` and filter the logs. -/
def scanDriver (st : Stats) (d : Driver) : Driver × Stats :=
  match d.logs with
  | none => (d, st)
  | some logs =>
    let st1 := { st with
      driversProcessed := st.driversProcessed + 1
      totalLogsProcessed := st.totalLogsProcessed + logs.length }
    let r := filterLogsGo logs st1
    ({ d with logs := some r.1 }, r.2)

def scanDrivers : Stats → List Driver → List Driver × Stats
  | st, [] => ([], st)
  | st, d :: ds =>
    let r := scanDriver st d
    let rest := scanDrivers r.2 ds
    (r.1 :: rest.1, rest.2)

/-- Per-company body of `filterErrorMessages`: skip companies without
`data`, else count the company and scan its drivers. -/
def scanCompany (st : Stats) (c : Company) : Company × Stats :=
  match c.data with
  | none => (c, st)
  | some ds =>
    let st1 := { st with companiesProcessed := st.companiesProcessed + 1 }
    let r := scanDrivers st1 ds
    ({ c with data := some r.1 }, r.2)

def filterErrorMessagesGo : Store → Stats → List Nat → Store × Stats
  | store, st, [] => (store, st)
  | store, st, r :: rs =>
    let p := scanCompany st (getCompany store r)
    filterErrorMessagesGo (setCompany store r p.1) p.2 rs

/-- `filterErrorMessages(results, stats)`; `none` models the
`if (!results) return` guard. -/
def filterErrorMessages (store : Store) (refs : Option (List Nat)) (st : Stats) : Store × Stats :=
  match refs with
  | none => (store, st)
  | some rs => filterErrorMessagesGo store st rs

/-! ## removeEmptyDrivers (processor lines 208-218) -/

/-- `driver.logs && driver.logs.length > 0`. -/
def keepDriver (d : Driver) : Bool :=
  match d.logs with
  | none => false
  | some ls => ls.length > 0

def removeEmptyDriversC (c : Company) : Company :=
  match c.data with
  | none => c
  | some ds => { c with data := some (ds.filter keepDriver) }

def removeEmptyDriversGo : Store → List Nat → Store
  | store, [] => store
  | store, r :: rs =>
    removeEmptyDriversGo (setCompany store r (removeEmptyDriversC (getCompany store r))) rs

/-- `removeEmptyDrivers(results)`; `none` models the missing-array guard. -/
def removeEmptyDrivers (store : Store) (refs : Option (List Nat)) : Store :=
  match refs with
  | none => store
  | some rs => removeEmptyDriversGo store rs

/-! ## Summaries, batch state and processSmartAnalyzeResults -/

/-- `summary.retryMetadata` attached by the retry orchestrator (the
wall-clock `totalExecutionTime` is omitted). -/
structure RetryMetadata where
  totalAttempts : Nat
  maxRetries : Nat
  individualRetryUsed : Bool
deriving DecidableEq

/-- `summary.processingStats` attached by the processor. -/
structure ProcessingStats where
  totalLogsProcessed : Nat
  totalLogsRemoved : Nat
  remainingLogs : Nat
  companiesProcessed : Nat
  driversProcessed : Nat
  warningsRemoved : List (String × Nat)
deriving DecidableEq

/-- The batch summary (timestamps, `successRate`, execution times and
`filtersApplied` are omitted: nothing in the embedded code reads them). -/
structure Summary where
  totalCompanies : Nat
  successful : Nat
  failed : Nat
  processingStats : Option ProcessingStats
  retryMetadata : Option RetryMetadata
deriving DecidableEq

/-- A batch-result object: the three result arrays are lists of
references into the shared `store`; `none` models a missing array, and
`summary = none` a missing summary. -/
structure PState where
  summary : Option Summary
  successfulResults : Option (List Nat)
  failedResults : Option (List Nat)
  allResults : Option (List Nat)
  store : Store
deriving DecidableEq

/-- `processSmartAnalyzeResults(data)` (processor lines 227-334): fresh
zero statistics, dedup companies on the three arrays (successful, all,
failed — company keys are read before any mutation), dedup drivers,
filter error messages threading the statistics through the three arrays
in the same order, prune empty drivers, and attach `processingStats`
(with `remainingLogs = totalLogsProcessed - totalLogsRemoved`) to the
summary when one is present. -/
def processSmartAnalyzeResults (data : PState) : PState :=
  let succ1 := data.successfulResults.map (removeDuplicateCompanies data.store)
  let all1 := data.allResults.map (removeDuplicateCompanies data.store)
  let fail1 := data.failedResults.map (removeDuplicateCompanies data.store)
  let store1 := removeDuplicateDrivers data.store succ1
  let store2 := removeDuplicateDrivers store1 all1
  let store3 := removeDuplicateDrivers store2 fail1
  let p1 := filterErrorMessages store3 succ1 initStats
  let p2 := filterErrorMessages p1.1 all1 p1.2
  let p3 := filterErrorMessages p2.1 fail1 p2.2
  let store4 := removeEmptyDrivers p3.1 succ1
  let store5 := removeEmptyDrivers store4 all1
  let store6 := removeEmptyDrivers store5 fail1
  let stats := p3.2
  let summary1 := data.summary.map (fun s =>
    { s with processingStats := some (
      { totalLogsProcessed := stats.totalLogsProcessed
        totalLogsRemoved := stats.totalLogsRemoved
        remainingLogs := stats.totalLogsProcessed - stats.totalLogsRemoved
        companiesProcessed := stats.companiesProcessed
        driversProcessed := stats.driversProcessed
        warningsRemoved := stats.warningsRemoved } : ProcessingStats) })
  { summary := summary1
    successfulResults := succ1
    failedResults := fail1
    allResults := all1
    store := store6 }

/-! ## smartAnalyzeForOrigin (fortexBatch lines 18-198)

The roster and the remote `smartAnalyze` call are external collaborators:
the roster is passed as a list of `{id, name}` descriptors and the
remote call as a deterministic outcome function from the company id. -/

/-- A roster entry `{id, name}` from the origin's company list. -/
structure RosterEntry where
  id : String
  name : String
deriving DecidableEq

/-- The per-company `.then(...).catch(...)` wrapper of the fan-out: a
resolution becomes a tagged success record, a rejection a tagged failed
record; nothing else can escape. -/
def entityRecord (fetch : String → Except String (Option (List Driver)))
    (c : RosterEntry) : Company :=
  match fetch c.id with
  | .ok d =>
    { status := .success, companyName := some c.name, companyId := some c.id,
      data := d, error := none }
  | .error e =>
    { status := .failed, companyName := some c.name, companyId := some c.id,
      data := none, error := some e }

/-- `smartAnalyzeForOrigin`: launch one `smartAnalyze` per roster company,
wait for all of them, partition by status and build the summary.  The
result arrays share the company objects: `allResults` is all references,
and the success/failed arrays are the references filtered by status. -/
def smartAnalyzeForOrigin (fetch : String → Except String (Option (List Driver)))
    (companies : List RosterEntry) : PState :=
  let store : Store := companies.map (entityRecord fetch)
  let allRefs := List.range store.length
  let succRefs := allRefs.filter (fun r => (getCompany store r).status == .success)
  let failRefs := allRefs.filter (fun r => (getCompany store r).status == .failed)
  { summary := some
      { totalCompanies := companies.length
        successful := succRefs.length
        failed := failRefs.length
        processingStats := none
        retryMetadata := none }
    successfulResults := some succRefs
    failedResults := some failRefs
    allResults := some allRefs
    store := store }

/-- `runOriginAnalysisPipeline` = fetch phase followed by the processor
(originAnalysisPipeline lines 36-49). -/
def runOriginAnalysisPipeline (fetch : String → Except String (Option (List Driver)))
    (companies : List RosterEntry) : PState :=
  processSmartAnalyzeResults (smartAnalyzeForOrigin fetch companies)

/-! ## runOriginAnalysisWithRetry (originAnalysisWithRetry lines 15-236)

The per-attempt batch pipeline call is abstracted as an oracle
`pipeline : Nat → Except String PState` (indexed by the 1-based attempt
number), and the direct `smartAnalyze(origin, companyId)` of the
individual-retry loop as `fetch : Option String → Except String ...`.
Property reads on missing objects (`undefined.field`), which throw
`TypeError` in JavaScript, are modelled as `.error "TypeError"`; inside
the phase-1 `try` block such a throw is caught like a failed attempt. -/

/-- The options object with its defaults (lines 16-21). -/
structure RetryOptions where
  maxRetries : Nat := 6
  retryFailedIndividually : Bool := true

/-- The best-result update of lines 53-56:
`if (!bestResult || result.summary.successful > bestResult.summary.successful) bestResult = result`.
When a summary is missing the comparison throws inside the `try` and the
pointer is left unchanged (the `!bestResult` branch assigns before any
summary is read). -/
def keepBetter (best : Option PState) (r : PState) : Option PState :=
  match best with
  | none => some r
  | some b =>
    match r.summary, b.summary with
    | some rs, some bs => if rs.successful > bs.successful then some r else some b
    | _, _ => some b

/-- Outcome of the phase-1 retry loop: the retained best result and the
final attempt counter, or the fatal first-attempt error. -/
inductive Phase1Out where
  | done (best : Option PState) (attempt : Nat)
  | fatal (e : String)
deriving DecidableEq

/-- The `while (attempt < maxRetries)` loop of lines 37-86, with the
remaining iteration count as fuel.  A thrown attempt (or a caught
`TypeError` from a missing summary) is fatal only when no best result is
retained yet; the loop breaks when the attempt reports zero failures. -/
def phase1Go (pipeline : Nat → Except String PState) :
    Nat → Nat → Option PState → Phase1Out
  | 0, a, best => .done best a
  | rem + 1, a, best =>
    match pipeline (a + 1) with
    | .error e =>
      if best.isNone then .fatal e else phase1Go pipeline rem (a + 1) best
    | .ok r =>
      let best1 := keepBetter best r
      match r.summary, best with
      | some rs, none =>
        if rs.failed == 0 then .done best1 (a + 1) else phase1Go pipeline rem (a + 1) best1
      | some rs, some b =>
        match b.summary with
        | some _ =>
          if rs.failed == 0 then .done best1 (a + 1) else phase1Go pipeline rem (a + 1) best1
        | none => phase1Go pipeline rem (a + 1) best1
      | none, _ => phase1Go pipeline rem (a + 1) best1

/-- The sequential individual-retry loop of lines 100-137: one direct
`smartAnalyze` call per retained failed company, each outcome collected
as a fresh tagged record. -/
def individualRetryGo (fetch : Option String → Except String (Option (List Driver)))
    (store : Store) : List Nat → List Company
  | [] => []
  | r :: rs =>
    let c := getCompany store r
    let entry :=
      match fetch c.companyId with
      | .ok d =>
        { status := .success, companyName := c.companyName, companyId := c.companyId,
          data := d, error := none : Company }
      | .error e =>
        { status := .failed, companyName := c.companyName, companyId := c.companyId,
          data := none, error := some e : Company }
    entry :: individualRetryGo fetch store rs

/-- Lines 149-158: push the recovered successes onto the success list,
replace the failure list by the still-failed records and rebuild
`allResults` as the concatenation.  The fresh retry records are
allocated at the end of the store. -/
def mergeRetryResults (best : PState) (srefs : List Nat)
    (newSuccesses stillFailed : List Company) : PState :=
  let n := best.store.length
  let store1 := best.store ++ newSuccesses ++ stillFailed
  let succ1 := srefs ++ (List.range newSuccesses.length).map (fun i => i + n)
  let fail1 := (List.range stillFailed.length).map (fun i => i + (n + newSuccesses.length))
  { summary := best.summary
    successfulResults := some succ1
    failedResults := some fail1
    allResults := some (succ1 ++ fail1)
    store := store1 }

/-- The individual-retry phase body (lines 97-169): retry each retained
failed company once; only when at least one company recovered, merge,
re-run the processor over the merged batch and update the summary counts
from the post-processing array lengths. -/
def individualRetryPhase (fetch : Option String → Except String (Option (List Driver)))
    (best : PState) : Except String PState :=
  match best.failedResults with
  | none => .error "TypeError"
  | some frefs =>
    let rts := individualRetryGo fetch best.store frefs
    let newSuccesses := rts.filter (fun c => c.status == .success)
    let stillFailed := rts.filter (fun c => c.status == .failed)
    if newSuccesses.length > 0 then
      match best.successfulResults with
      | none => .error "TypeError"
      | some srefs =>
        let processed := processSmartAnalyzeResults
          (mergeRetryResults best srefs newSuccesses stillFailed)
        match processed.summary, processed.successfulResults,
              processed.failedResults, processed.allResults with
        | some s, some ps, some pf, some pa =>
          .ok { processed with summary := some (
            { s with successful := ps.length, failed := pf.length,
                     totalCompanies := pa.length } : Summary) }
        | _, _, _, _ => .error "TypeError"
    else .ok best

/-- `runOriginAnalysisWithRetry(origin, options)`: phase-1 whole-batch
retry loop, then the individual-retry phase when enabled and failures
remain, then attach `retryMetadata` to the summary. -/
def runOriginAnalysisWithRetry (pipeline : Nat → Except String PState)
    (fetch : Option String → Except String (Option (List Driver)))
    (opts : RetryOptions) : Except String PState :=
  match phase1Go pipeline opts.maxRetries 0 none with
  | .fatal e => .error e
  | .done none _ => .error "TypeError"
  | .done (some best) attempt =>
    let afterPhase2 : Except String PState :=
      if opts.retryFailedIndividually then
        match best.summary with
        | none => .error "TypeError"
        | some s =>
          if s.failed > 0 then individualRetryPhase fetch best else .ok best
      else .ok best
    match afterPhase2 with
    | .error e => .error e
    | .ok b =>
      match b.summary with
      | none => .error "TypeError"
      | some s =>
        .ok { b with summary := some (
          { s with retryMetadata := some (
            { totalAttempts := attempt
              maxRetries := opts.maxRetries
              individualRetryUsed := opts.retryFailedIndividually } : RetryMetadata) } : Summary) }

/-! ## Counting and auxiliary definitions used by the theorems -/

/-- Number of log records in a driver (0 when `logs` is missing). -/
def driverLogCount (d : Driver) : Nat :=
  match d.logs with
  | none => 0
  | some ls => ls.length

/-- Number of log records in a company. -/
def companyLogCount (c : Company) : Nat :=
  match c.data with
  | none => 0
  | some ds => (ds.map driverLogCount).sum

/-- Number of log records reachable from one (possibly missing) result
array. -/
def refsLogCount (store : Store) (refs : Option (List Nat)) : Nat :=
  match refs with
  | none => 0
  | some rs => (rs.map (fun r => companyLogCount (getCompany store r))).sum

/-- Log records present in the output document: one count per containing
result array (a company object shared between `successfulResults` and
`allResults` contributes to both, exactly as it appears twice in the
serialized output). -/
def outputLogCount (st : PState) : Nat :=
  refsLogCount st.store st.successfulResults +
    refsLogCount st.store st.allResults +
    refsLogCount st.store st.failedResults

/-- The ids of the companies referenced by a result array. -/
def idsAt (store : Store) (refs : List Nat) : List (Option String) :=
  refs.map (fun r => (getCompany store r).companyId)

/-- Read a successful batch result out of the orchestrator's return
value (used only to state concrete witnesses). -/
def okOr (x : Except String PState) (d : PState) : PState :=
  match x with
  | .ok r => r
  | .error _ => d

def emptyPState : PState :=
  { summary := none, successfulResults := none, failedResults := none,
    allResults := none, store := [] }

/-! ## Store helper lemmas -/

theorem length_setCompany (store : Store) (r : Nat) (c : Company) :
    (setCompany store r c).length = store.length := by
  simp [setCompany]

theorem getCompany_set_ne (store : Store) (x r : Nat) (c : Company) (h : r ≠ x) :
    getCompany (setCompany store x c) r = getCompany store r := by
  unfold getCompany setCompany
  by_cases hr : r < store.length
  · rw [List.getD_eq_getElem _ _ (by simpa using hr),
      List.getD_eq_getElem _ _ hr, List.getElem_set_ne (by omega)]
  · rw [List.getD_eq_default _ _ (by simpa using Nat.le_of_not_lt hr),
      List.getD_eq_default _ _ (by simpa using Nat.le_of_not_lt hr)]

theorem getCompany_set_self_of_lt (store : Store) (r : Nat) (c : Company)
    (h : r < store.length) :
    getCompany (setCompany store r c) r = c := by
  unfold getCompany setCompany
  rw [List.getD_eq_getElem _ _ (by simpa using h), List.getElem_set_self]

theorem getCompany_oob (store : Store) (r : Nat) (h : store.length ≤ r) :
    getCompany store r = defaultCompany := by
  unfold getCompany
  exact List.getD_eq_default _ _ h

/-- Updating a reference with an image of its own company: the read-back
is exactly the image, provided the update function fixes the
out-of-store default company. -/
theorem getCompany_set_image (store : Store) (r : Nat) (f : Company → Company)
    (hd : f defaultCompany = defaultCompany) :
    getCompany (setCompany store r (f (getCompany store r))) r = f (getCompany store r) := by
  by_cases h : r < store.length
  · exact getCompany_set_self_of_lt _ _ _ h
  · have hoob := getCompany_oob store r (Nat.le_of_not_lt h)
    unfold setCompany
    rw [List.set_eq_of_length_le (by simpa using Nat.le_of_not_lt h)]
    rw [hoob, hd]

/-! ## C10: retryMetadata.individualRetryUsed mirrors the option -/

/-- C10: for every run that returns a batch result, the attached
`retryMetadata.individualRetryUsed` equals the `retryFailedIndividually`
option, independently of whether the individual-retry phase actually
executed. -/
theorem retryMetadata_mirrors_option
    (pipeline : Nat → Except String PState)
    (fetch : Option String → Except String (Option (List Driver)))
    (opts : RetryOptions) (res : PState)
    (h : runOriginAnalysisWithRetry pipeline fetch opts = .ok res) :
    ∃ s m, res.summary = some s ∧ s.retryMetadata = some m ∧
      m.individualRetryUsed = opts.retryFailedIndividually := by
  unfold runOriginAnalysisWithRetry at h
  rcases hp : phase1Go pipeline opts.maxRetries 0 none with ⟨best, attempt⟩ | ⟨e⟩
  · rw [hp] at h
    rcases best with _ | best
    · exact absurd h (by simp)
    · simp only at h
      rcases hq : (if opts.retryFailedIndividually then
          match best.summary with
          | none => Except.error "TypeError"
          | some s =>
            if s.failed > 0 then individualRetryPhase fetch best else Except.ok best
        else Except.ok best) with e | b
      · rw [hq] at h
        exact absurd h (by simp)
      · rw [hq] at h
        rcases hs : b.summary with _ | s
        · simp only [hs] at h
          exact absurd h (by simp)
        · simp only [hs, Except.ok.injEq] at h
          subst h
          exact ⟨_, _, rfl, rfl, rfl⟩
  · rw [hp] at h
    exact absurd h (by simp)

def pipelineC10 : Nat → Except String PState :=
  fun _ => .ok (runOriginAnalysisPipeline (fun _ => .ok (some [])) [⟨"a", "A"⟩])

def fetchC10 : Option String → Except String (Option (List Driver)) :=
  fun _ => .error "unused"

/-- Witness for C10: a run where every company succeeds on the first
attempt, with the default options, still reports
`individualRetryUsed = true`. -/
theorem retryMetadata_mirrors_option_witness :
    ∃ s m,
      (okOr (runOriginAnalysisWithRetry pipelineC10 fetchC10 {}) emptyPState).summary = some s ∧
      s.retryMetadata = some m ∧ m.individualRetryUsed = true := by
  have h : runOriginAnalysisWithRetry pipelineC10 fetchC10 {} =
      .ok (okOr (runOriginAnalysisWithRetry pipelineC10 fetchC10 {}) emptyPState) := by rfl
  simpa using retryMetadata_mirrors_option pipelineC10 fetchC10 {} _ h

/-! ## C6: batch fetcher totality and isolation -/

def defaultRosterEntry : RosterEntry := ⟨"", ""⟩

theorem cstatus_failed_eq_not_success (c : Company) :
    (c.status == CStatus.failed) = !(c.status == CStatus.success) := by
  cases c.status <;> rfl

theorem getCompany_map_entityRecord
    (f : String → Except String (Option (List Driver)))
    (companies : List RosterEntry) (i : Nat) (hi : i < companies.length) :
    getCompany (companies.map (entityRecord f)) i =
      entityRecord f (companies.getD i defaultRosterEntry) := by
  unfold getCompany
  rw [List.getD_eq_getElem _ _ (by simpa using hi), List.getElem_map,
    ← List.getD_eq_getElem companies defaultRosterEntry hi]

/-- C6: the fan-out resolves every per-entity call to a tagged success
or failed record (an exception from the fetch becomes a failed record
and never escapes), the batch returns one record per roster entity
(`allResults` has the roster's length and the success/failed arrays
partition it), and one entity's outcome depends only on its own fetch:
changing the fetch outcomes of other entities leaves its record
untouched. -/
theorem batchFetcher_total_and_isolated
    (fetch : String → Except String (Option (List Driver)))
    (companies : List RosterEntry) :
    ∃ allRefs succRefs failRefs,
      (smartAnalyzeForOrigin fetch companies).allResults = some allRefs ∧
      (smartAnalyzeForOrigin fetch companies).successfulResults = some succRefs ∧
      (smartAnalyzeForOrigin fetch companies).failedResults = some failRefs ∧
      allRefs.length = companies.length ∧
      succRefs.length + failRefs.length = companies.length ∧
      ∀ i, i < companies.length →
        (getCompany (smartAnalyzeForOrigin fetch companies).store i =
          entityRecord fetch (companies.getD i defaultRosterEntry)) ∧
        ((∃ d, fetch (companies.getD i defaultRosterEntry).id = .ok d ∧
            getCompany (smartAnalyzeForOrigin fetch companies).store i =
              ⟨.success, some (companies.getD i defaultRosterEntry).name,
                some (companies.getD i defaultRosterEntry).id, d, none⟩) ∨
         (∃ e, fetch (companies.getD i defaultRosterEntry).id = .error e ∧
            getCompany (smartAnalyzeForOrigin fetch companies).store i =
              ⟨.failed, some (companies.getD i defaultRosterEntry).name,
                some (companies.getD i defaultRosterEntry).id, none, some e⟩)) ∧
        ∀ g, g (companies.getD i defaultRosterEntry).id =
              fetch (companies.getD i defaultRosterEntry).id →
          getCompany (smartAnalyzeForOrigin g companies).store i =
            getCompany (smartAnalyzeForOrigin fetch companies).store i := by
  refine ⟨_, _, _, rfl, rfl, rfl, by simp, ?_, ?_⟩
  · simp only [List.length_map]
    have h := List.length_eq_length_filter_add
      (l := List.range companies.length)
      (fun r => (getCompany (companies.map (entityRecord fetch)) r).status == CStatus.success)
    have hcongr :
        (List.range companies.length).filter
            (fun r => !((getCompany (companies.map (entityRecord fetch)) r).status == CStatus.success)) =
          (List.range companies.length).filter
            (fun r => (getCompany (companies.map (entityRecord fetch)) r).status == CStatus.failed) := by
      apply List.filter_congr
      intro r _
      rw [cstatus_failed_eq_not_success]
    rw [hcongr] at h
    simp only [List.length_range] at h
    omega
  · intro i hi
    have hrec := getCompany_map_entityRecord fetch companies i hi
    refine ⟨hrec, ?_, ?_⟩
    · rcases hf : fetch (companies.getD i defaultRosterEntry).id with e | d
      · right
        exact ⟨e, rfl, by simp only [smartAnalyzeForOrigin]; rw [hrec]; unfold entityRecord; rw [hf]⟩
      · left
        exact ⟨d, rfl, by simp only [smartAnalyzeForOrigin]; rw [hrec]; unfold entityRecord; rw [hf]⟩
    · intro g hg
      have hrecg := getCompany_map_entityRecord g companies i hi
      simp only [smartAnalyzeForOrigin]
      rw [hrec, hrecg]
      unfold entityRecord
      rw [hg]

def fetchC6 : String → Except String (Option (List Driver)) :=
  fun s => if s = "a" then .ok (some []) else .error "boom"

def fetchC6x : String → Except String (Option (List Driver)) :=
  fun s => if s = "a" then .ok (some []) else .error "other"

def companiesC6 : List RosterEntry := [⟨"a", "A"⟩, ⟨"b", "B"⟩]

/-- Witness for C6: two-entity roster where the second entity's fetch
rejects; the batch still holds one record per entity and entity 0 is
unaffected by the sibling outcome. -/
theorem batchFetcher_total_and_isolated_witness :
    ∃ allRefs succRefs failRefs,
      (smartAnalyzeForOrigin fetchC6 companiesC6).allResults = some allRefs ∧
      (smartAnalyzeForOrigin fetchC6 companiesC6).successfulResults = some succRefs ∧
      (smartAnalyzeForOrigin fetchC6 companiesC6).failedResults = some failRefs ∧
      allRefs.length = 2 ∧ succRefs.length + failRefs.length = 2 ∧
      getCompany (smartAnalyzeForOrigin fetchC6x companiesC6).store 0 =
        getCompany (smartAnalyzeForOrigin fetchC6 companiesC6).store 0 := by
  obtain ⟨a, s, f, h1, h2, h3, h4, h5, h6⟩ :=
    batchFetcher_total_and_isolated fetchC6 companiesC6
  obtain ⟨-, -, hiso⟩ := h6 0 (by decide)
  exact ⟨a, s, f, h1, h2, h3, h4, h5, hiso fetchC6x rfl⟩

/-! ## C8: filter correctness with first-match attribution -/

/-- The key of the first (earliest declared) filter matching a message. -/
def firstFilterKey (em : Option String) : Option String :=
  (ERROR_FILTERS.find? (fun f => f.matchFn em)).map (fun f => f.key)

/-- Read a per-rule counter out of the `warningsRemoved` object. -/
def lookupWR : List (String × Nat) → String → Nat
  | [], _ => 0
  | p :: ps, k => if p.1 = k then p.2 else lookupWR ps k

/-- Every filter key is present in the counter object (true of the
initialised statistics and preserved by every update). -/
def hasFilterKeys (l : List (String × Nat)) : Prop :=
  ∀ f ∈ ERROR_FILTERS, f.key ∈ l.map Prod.fst

theorem lookupWR_bumpKey_same (l : List (String × Nat)) (k : String)
    (h : k ∈ l.map Prod.fst) :
    lookupWR (bumpKey l k) k = lookupWR l k + 1 := by
  induction l with
  | nil => simp at h
  | cons p ps ih =>
    by_cases hp : p.1 = k
    · simp [lookupWR, bumpKey, hp]
    · have hps : k ∈ ps.map Prod.fst := by
        rcases (by simpa using h) with h1 | h1
        · exact absurd h1.symm hp
        · simpa using h1
      simpa [bumpKey, lookupWR, hp] using ih hps

theorem lookupWR_bumpKey_ne (l : List (String × Nat)) (k k1 : String) (h : k1 ≠ k) :
    lookupWR (bumpKey l k) k1 = lookupWR l k1 := by
  induction l with
  | nil => simp [lookupWR, bumpKey]
  | cons p ps ih =>
    by_cases hp : p.1 = k
    · simpa [bumpKey, lookupWR, hp, Ne.symm h] using ih
    · by_cases hp1 : p.1 = k1
      · simp [lookupWR, bumpKey, hp, hp1, h]
      · simpa [bumpKey, lookupWR, hp, hp1] using ih

theorem bumpKey_keys (l : List (String × Nat)) (k : String) :
    (bumpKey l k).map Prod.fst = l.map Prod.fst := by
  induction l with
  | nil => rfl
  | cons p ps ih =>
    by_cases hp : p.1 = k <;> simp [bumpKey, hp] at ih ⊢ <;> simpa [bumpKey] using ih

theorem hasFilterKeys_bumpKey (l : List (String × Nat)) (k : String)
    (h : hasFilterKeys l) : hasFilterKeys (bumpKey l k) := by
  intro f hf
  rw [bumpKey_keys]
  exact h f hf

theorem hasFilterKeys_initStats : hasFilterKeys initStats.warningsRemoved := by
  unfold hasFilterKeys
  decide

/-- Specification of the per-log filter loop. -/
theorem filterLogsGo_spec (logs : List Log) (st : Stats)
    (hkeys : hasFilterKeys st.warningsRemoved) :
    (filterLogsGo logs st).1 =
      logs.filter (fun l => (ERROR_FILTERS.find? (fun f => f.matchFn l.errorMessage)).isNone) ∧
    (filterLogsGo logs st).2.totalLogsProcessed = st.totalLogsProcessed ∧
    (filterLogsGo logs st).2.companiesProcessed = st.companiesProcessed ∧
    (filterLogsGo logs st).2.driversProcessed = st.driversProcessed ∧
    (filterLogsGo logs st).2.totalLogsRemoved = st.totalLogsRemoved +
      logs.countP (fun l => (ERROR_FILTERS.find? (fun f => f.matchFn l.errorMessage)).isSome) ∧
    (∀ k, lookupWR (filterLogsGo logs st).2.warningsRemoved k =
      lookupWR st.warningsRemoved k +
        logs.countP (fun l => firstFilterKey l.errorMessage == some k)) ∧
    hasFilterKeys (filterLogsGo logs st).2.warningsRemoved := by
  induction logs generalizing st with
  | nil => exact ⟨rfl, rfl, rfl, rfl, by simp [filterLogsGo], by simp [filterLogsGo], hkeys⟩
  | cons l ls ih =>
    rcases hfind : ERROR_FILTERS.find? (fun f => f.matchFn l.errorMessage) with _ | f
    · have hstep : filterLogsGo (l :: ls) st =
        (l :: (filterLogsGo ls st).1, (filterLogsGo ls st).2) := by
        simp [filterLogsGo, hfind]
      obtain ⟨h1, h2, h3, h4, h5, h6, h7⟩ := ih st hkeys
      rw [hstep]
      refine ⟨?_, h2, h3, h4, ?_, ?_, h7⟩
      · rw [h1, List.filter_cons]
        simp [hfind]
      · rw [h5, List.countP_cons]
        simp [hfind]
      · intro k
        rw [h6 k, List.countP_cons]
        simp [firstFilterKey, hfind]
    · have hstep : filterLogsGo (l :: ls) st = filterLogsGo ls (bumpRemoved st f.key) := by
        simp [filterLogsGo, hfind]
      have hkeys1 : hasFilterKeys (bumpRemoved st f.key).warningsRemoved :=
        hasFilterKeys_bumpKey _ _ hkeys
      obtain ⟨h1, h2, h3, h4, h5, h6, h7⟩ := ih (bumpRemoved st f.key) hkeys1
      have hfmem : f ∈ ERROR_FILTERS := List.mem_of_find?_eq_some hfind
      rw [hstep]
      refine ⟨?_, ?_, ?_, ?_, ?_, ?_, h7⟩
      · rw [h1, List.filter_cons]
        simp [hfind]
      · exact h2
      · exact h3
      · exact h4
      · rw [h5, List.countP_cons]
        simp only [bumpRemoved]
        simp [hfind]
        omega
      · intro k
        rw [h6 k, List.countP_cons]
        by_cases hk : f.key = k
        · subst hk
          rw [show (bumpRemoved st f.key).warningsRemoved = bumpKey st.warningsRemoved f.key from rfl]
          rw [lookupWR_bumpKey_same _ _ (hkeys f hfmem)]
          simp [firstFilterKey, hfind]
          omega
        · rw [show (bumpRemoved st f.key).warningsRemoved = bumpKey st.warningsRemoved f.key from rfl]
          rw [lookupWR_bumpKey_ne _ _ _ (fun hkk => hk hkk.symm)]
          have : (firstFilterKey l.errorMessage == some k) = false := by
            simp [firstFilterKey, hfind]
            exact hk
          simp [this]

/-- C8: during the log-filter stage, a log is removed iff some rule in
the ordered filter list matches it (the kept logs are exactly the ones
matched by no rule, in order), `totalLogsProcessed` grows by one per log
seen regardless of outcome, `totalLogsRemoved` grows exactly by the
number of removed logs, and every removal is credited to the earliest
matching rule (in declared order) only. -/
theorem filter_first_match_attribution (st : Stats) (d : Driver) (logs : List Log)
    (hlogs : d.logs = some logs) (hkeys : hasFilterKeys st.warningsRemoved) :
    (scanDriver st d).1.logs =
      some (logs.filter (fun l => (ERROR_FILTERS.find? (fun f => f.matchFn l.errorMessage)).isNone)) ∧
    (scanDriver st d).2.totalLogsProcessed = st.totalLogsProcessed + logs.length ∧
    (scanDriver st d).2.totalLogsRemoved = st.totalLogsRemoved +
      logs.countP (fun l => (ERROR_FILTERS.find? (fun f => f.matchFn l.errorMessage)).isSome) ∧
    ∀ k, lookupWR (scanDriver st d).2.warningsRemoved k =
      lookupWR st.warningsRemoved k +
        logs.countP (fun l => firstFilterKey l.errorMessage == some k) := by
  have hscan : scanDriver st d =
      ({ d with logs := some (filterLogsGo logs
          { st with driversProcessed := st.driversProcessed + 1,
                    totalLogsProcessed := st.totalLogsProcessed + logs.length }).1 },
        (filterLogsGo logs
          { st with driversProcessed := st.driversProcessed + 1,
                    totalLogsProcessed := st.totalLogsProcessed + logs.length }).2) := by
    unfold scanDriver
    rw [hlogs]
  obtain ⟨h1, h2, _, _, h5, h6, _⟩ := filterLogsGo_spec logs
    { st with driversProcessed := st.driversProcessed + 1,
              totalLogsProcessed := st.totalLogsProcessed + logs.length }
    (by exact hkeys)
  rw [hscan]
  exact ⟨by simpa using h1, by simpa using h2, by simpa using h5, fun k => by simpa using h6 k⟩

def driverC8 : Driver :=
  ⟨some "D1", none, some [⟨some "SEQUENTIAL ID BREAK WARNING"⟩, ⟨some "REAL EVENT"⟩]⟩

/-- Witness for C8: a driver with one matching and one non-matching
log; the matching log is removed and credited to `sequentialIdBreak`,
the other is retained. -/
theorem filter_first_match_attribution_witness :
    (scanDriver initStats driverC8).1.logs = some [⟨some "REAL EVENT"⟩] ∧
    (scanDriver initStats driverC8).2.totalLogsProcessed = 2 ∧
    (scanDriver initStats driverC8).2.totalLogsRemoved = 1 ∧
    lookupWR (scanDriver initStats driverC8).2.warningsRemoved "sequentialIdBreak" = 1 := by
  obtain ⟨h1, h2, h3, h4⟩ := filter_first_match_attribution initStats driverC8
    [⟨some "SEQUENTIAL ID BREAK WARNING"⟩, ⟨some "REAL EVENT"⟩] rfl hasFilterKeys_initStats
  exact ⟨h1.trans (by decide), h2.trans (by decide), h3.trans (by decide),
    (h4 "sequentialIdBreak").trans (by decide)⟩

/-! ## C9: idempotence of deduplication -/

/-- The company keys referenced by a result array. -/
def companyKeysAt (store : Store) (refs : List Nat) : List (Option String) :=
  refs.map (fun r => companyKey (getCompany store r))

/-- Within the company, no two drivers share a key (vacuous when `data`
is missing). -/
def companyDriversDeduped (c : Company) : Prop :=
  ((c.data.getD []).map driverKey).Nodup

instance decCompanyDriversDeduped (c : Company) : Decidable (companyDriversDeduped c) :=
  inferInstanceAs (Decidable (((c.data.getD []).map driverKey).Nodup))

/-- One dedup stage of the Reduction Pipeline on a single result array:
Deduplicate Companies, then Deduplicate Drivers over the survivors. -/
def dedupStage (store : Store) (refs : List Nat) : Store × List Nat :=
  let refs1 := removeDuplicateCompanies store refs
  (removeDuplicateDrivers store (some refs1), refs1)

theorem setCompany_get_self (store : Store) (r : Nat) :
    setCompany store r (getCompany store r) = store := by
  unfold setCompany getCompany
  induction store generalizing r with
  | nil => simp
  | cons c cs ih =>
    cases r with
    | zero => simp [List.getD]
    | succ n =>
      simp only [List.getD_cons_succ, List.set_cons_succ, List.cons.injEq, true_and]
      exact ih n

theorem insertDriver_of_not_mem (acc : List Driver) (d : Driver)
    (h : driverKey d ∉ acc.map driverKey) :
    insertDriver acc d = acc ++ [d] := by
  induction acc with
  | nil => rfl
  | cons e es ih =>
    have hne : driverKey e ≠ driverKey d := by
      intro hk
      exact h (by simp [hk])
    simp only [insertDriver, if_neg hne, List.cons_append, List.cons.injEq, true_and]
    exact ih (fun hm => h (by simp [hm]))

theorem driverKey_mergeLogs (existing d : Driver) :
    driverKey (mergeLogs existing d) = driverKey existing := by
  unfold mergeLogs
  rcases d.logs with _ | dl <;> rcases hl : existing.logs with _ | el <;>
    simp [driverKey, jsOr]

theorem insertDriver_keys_mem (acc : List Driver) (d : Driver) (x : Option String) :
    x ∈ (insertDriver acc d).map driverKey ↔
      x ∈ acc.map driverKey ∨ x = driverKey d := by
  induction acc with
  | nil => simp [insertDriver]
  | cons e es ih =>
    by_cases he : driverKey e = driverKey d
    · show x ∈ (if driverKey e = driverKey d then mergeLogs e d :: es
          else e :: insertDriver es d).map driverKey ↔ _
      rw [if_pos he]
      simp only [List.map_cons, driverKey_mergeLogs, List.mem_cons]
      rw [he]
      tauto
    · show x ∈ (if driverKey e = driverKey d then mergeLogs e d :: es
          else e :: insertDriver es d).map driverKey ↔ _
      rw [if_neg he]
      simp only [List.map_cons, List.mem_cons, ih]
      tauto

theorem insertDriver_keys_nodup (acc : List Driver) (d : Driver)
    (h : (acc.map driverKey).Nodup) :
    ((insertDriver acc d).map driverKey).Nodup := by
  induction acc with
  | nil => simp [insertDriver]
  | cons e es ih =>
    by_cases he : driverKey e = driverKey d
    · simpa only [insertDriver, if_pos he, List.map_cons, driverKey_mergeLogs] using h
    · simp only [insertDriver, if_neg he, List.map_cons, List.nodup_cons] at h ⊢
      refine ⟨?_, ih h.2⟩
      intro hmem
      rcases (insertDriver_keys_mem es d (driverKey e)).mp hmem with h1 | h1
      · exact h.1 h1
      · exact he h1

theorem foldl_insertDriver_keys_nodup (ds : List Driver) (acc : List Driver)
    (h : (acc.map driverKey).Nodup) :
    ((ds.foldl insertDriver acc).map driverKey).Nodup := by
  induction ds generalizing acc with
  | nil => exact h
  | cons d rest ih => exact ih _ (insertDriver_keys_nodup acc d h)

theorem foldl_insertDriver_of_nodup (ds : List Driver) (acc : List Driver)
    (h : ((acc ++ ds).map driverKey).Nodup) :
    ds.foldl insertDriver acc = acc ++ ds := by
  induction ds generalizing acc with
  | nil => simp
  | cons d rest ih =>
    have hnot : driverKey d ∉ acc.map driverKey := by
      intro hmem
      rw [List.map_append] at h
      have hd : driverKey d ∈ (d :: rest).map driverKey := by simp
      exact (List.disjoint_of_nodup_append h) hmem hd
    have hstep : insertDriver acc d = acc ++ [d] := insertDriver_of_not_mem acc d hnot
    have hnext : (((acc ++ [d]) ++ rest).map driverKey).Nodup := by
      simpa using h
    calc (d :: rest).foldl insertDriver acc = rest.foldl insertDriver (insertDriver acc d) := rfl
      _ = rest.foldl insertDriver (acc ++ [d]) := by rw [hstep]
      _ = (acc ++ [d]) ++ rest := ih _ hnext
      _ = acc ++ d :: rest := by simp

theorem removeDuplicateDriversC_of_deduped (c : Company)
    (h : companyDriversDeduped c) : removeDuplicateDriversC c = c := by
  obtain ⟨cst, cn, ci, cdata, cerr⟩ := c
  unfold removeDuplicateDriversC companyDriversDeduped at *
  rcases cdata with _ | ds
  · rfl
  · simp only [Option.getD_some] at h
    simp only []
    rw [foldl_insertDriver_of_nodup ds [] (by simpa using h)]
    simp

theorem removeDuplicateDriversC_deduped (c : Company) :
    companyDriversDeduped (removeDuplicateDriversC c) := by
  obtain ⟨cst, cn, ci, cdata, cerr⟩ := c
  unfold removeDuplicateDriversC companyDriversDeduped at *
  rcases cdata with _ | ds
  · simp
  · simpa using foldl_insertDriver_keys_nodup ds [] (by simp)

theorem removeDuplicateDriversC_key (c : Company) :
    companyKey (removeDuplicateDriversC c) = companyKey c := by
  unfold removeDuplicateDriversC
  rcases c.data with _ | ds <;> simp [companyKey, jsOr]

theorem removeDuplicateDriversC_default :
    removeDuplicateDriversC defaultCompany = defaultCompany := rfl

theorem driversGo_untouched (store : Store) (rs : List Nat) (x : Nat) (h : x ∉ rs) :
    getCompany (removeDuplicateDriversGo store rs) x = getCompany store x := by
  induction rs generalizing store with
  | nil => rfl
  | cons r rest ih =>
    have hx : x ∉ rest := fun hm => h (by simp [hm])
    have hxr : x ≠ r := fun he => h (by simp [he])
    rw [removeDuplicateDriversGo, ih _ hx, getCompany_set_ne _ _ _ _ hxr]

theorem driversGo_key_pointwise (store : Store) (rs : List Nat) (x : Nat) :
    companyKey (getCompany (removeDuplicateDriversGo store rs) x) =
      companyKey (getCompany store x) := by
  induction rs generalizing store with
  | nil => rfl
  | cons r rest ih =>
    rw [removeDuplicateDriversGo, ih]
    by_cases hx : x = r
    · subst hx
      rw [getCompany_set_image store x removeDuplicateDriversC removeDuplicateDriversC_default,
        removeDuplicateDriversC_key]
    · rw [getCompany_set_ne _ _ _ _ hx]

theorem driversGo_at_member (store : Store) (rs : List Nat) (r : Nat)
    (hmem : r ∈ rs) (hnd : rs.Nodup) :
    getCompany (removeDuplicateDriversGo store rs) r =
      removeDuplicateDriversC (getCompany store r) := by
  induction rs generalizing store with
  | nil => simp at hmem
  | cons a rest ih =>
    rw [removeDuplicateDriversGo]
    rcases List.mem_cons.mp hmem with he | hm
    · subst he
      have hnot : r ∉ rest := (List.nodup_cons.mp hnd).1
      rw [driversGo_untouched _ _ _ hnot,
        getCompany_set_image store r removeDuplicateDriversC removeDuplicateDriversC_default]
    · have hra : r ≠ a := by
        intro he
        subst he
        exact (List.nodup_cons.mp hnd).1 hm
      rw [ih _ hm (List.nodup_cons.mp hnd).2, getCompany_set_ne _ _ _ _ hra]

theorem driversGo_of_fixed (store : Store) (rs : List Nat)
    (h : ∀ r ∈ rs, removeDuplicateDriversC (getCompany store r) = getCompany store r) :
    removeDuplicateDriversGo store rs = store := by
  induction rs with
  | nil => rfl
  | cons r rest ih =>
    rw [removeDuplicateDriversGo, h r (by simp), setCompany_get_self]
    exact ih (fun x hx => h x (by simp [hx]))

theorem companiesGo_sublist (store : Store) (seen : List (Option String)) (refs : List Nat) :
    (removeDuplicateCompaniesGo store seen refs).Sublist refs := by
  induction refs generalizing seen with
  | nil => simp [removeDuplicateCompaniesGo]
  | cons r rest ih =>
    rw [removeDuplicateCompaniesGo]
    by_cases hk : companyKey (getCompany store r) ∈ seen
    · simp only [if_pos hk]
      exact (ih seen).cons r
    · simp only [if_neg hk]
      exact (ih _).cons₂ r

theorem companiesGo_of_nodup (store : Store) (seen : List (Option String)) (refs : List Nat)
    (hnd : (companyKeysAt store refs).Nodup)
    (hseen : ∀ r ∈ refs, companyKey (getCompany store r) ∉ seen) :
    removeDuplicateCompaniesGo store seen refs = refs := by
  induction refs generalizing seen with
  | nil => rfl
  | cons r rest ih =>
    rw [removeDuplicateCompaniesGo]
    rw [if_neg (hseen r (by simp))]
    congr 1
    apply ih
    · exact (List.nodup_cons.mp (by simpa [companyKeysAt] using hnd)).2
    · intro x hx hkx
      rcases List.mem_cons.mp hkx with he | hm
      · have : companyKey (getCompany store r) ∈ companyKeysAt store rest := by
          simp only [companyKeysAt, List.mem_map]
          exact ⟨x, hx, he⟩
        exact (List.nodup_cons.mp (by simpa [companyKeysAt] using hnd)).1 this
      · exact hseen x (by simp [hx]) hm

theorem companiesGo_keys_nodup (store : Store) (seen : List (Option String)) (refs : List Nat) :
    (companyKeysAt store (removeDuplicateCompaniesGo store seen refs)).Nodup ∧
    ∀ r ∈ removeDuplicateCompaniesGo store seen refs,
      companyKey (getCompany store r) ∉ seen := by
  induction refs generalizing seen with
  | nil => exact ⟨by simp [removeDuplicateCompaniesGo, companyKeysAt], by simp [removeDuplicateCompaniesGo]⟩
  | cons r rest ih =>
    rw [removeDuplicateCompaniesGo]
    by_cases hk : companyKey (getCompany store r) ∈ seen
    · simpa only [if_pos hk] using ih seen
    · simp only [if_neg hk]
      obtain ⟨ih1, ih2⟩ := ih (companyKey (getCompany store r) :: seen)
      refine ⟨?_, ?_⟩
      · simp only [companyKeysAt, List.map_cons, List.nodup_cons]
        refine ⟨?_, by simpa [companyKeysAt] using ih1⟩
        intro hmem
        rcases List.mem_map.mp hmem with ⟨x, hx, hkx⟩
        exact (ih2 x hx) (by simp [hkx])
      · intro x hx
        rcases List.mem_cons.mp hx with he | hm
        · subst he
          exact hk
        · intro hs
          exact (ih2 x hm) (by simp [hs])

/-- C9: Deduplicate Companies keeps survivors in first-seen order (the
output is a sublist of the input); on an already-deduplicated structure
(no two companies share a key, no two drivers within a company share a
key) the dedup stage removes nothing and grows no log list (it is the
identity); and in general the dedup stage is idempotent:
`dedup (dedup x) = dedup x`. -/
theorem dedup_idempotent (store : Store) (refs : List Nat) :
    (removeDuplicateCompanies store refs).Sublist refs ∧
    ((companyKeysAt store refs).Nodup →
      (∀ r ∈ refs, companyDriversDeduped (getCompany store r)) →
      dedupStage store refs = (store, refs)) ∧
    dedupStage (dedupStage store refs).1 (dedupStage store refs).2 =
      dedupStage store refs := by
  have hsub : (removeDuplicateCompanies store refs).Sublist refs := by
    unfold removeDuplicateCompanies
    by_cases he : refs.isEmpty
    · simp [he]
    · simp only [if_neg he]
      exact companiesGo_sublist store [] refs
  refine ⟨hsub, ?_, ?_⟩
  · intro hC hD
    have hrc : removeDuplicateCompanies store refs = refs := by
      unfold removeDuplicateCompanies
      by_cases he : refs.isEmpty
      · simp [he]
      · simp only [if_neg he]
        exact companiesGo_of_nodup store [] refs hC (by simp)
    unfold dedupStage
    rw [hrc]
    simp only [removeDuplicateDrivers, Prod.mk.injEq, and_true]
    exact driversGo_of_fixed store refs
      (fun r hr => removeDuplicateDriversC_of_deduped _ (hD r hr))
  · set refs1 := removeDuplicateCompanies store refs with hrefs1
    have hnd1 : (companyKeysAt store refs1).Nodup := by
      rw [hrefs1]
      unfold removeDuplicateCompanies
      by_cases he : refs.isEmpty
      · have : refs = [] := List.isEmpty_iff.mp he
        simp [this, companyKeysAt]
      · simp only [if_neg he]
        exact (companiesGo_keys_nodup store [] refs).1
    have hndrefs1 : refs1.Nodup := by
      have := hnd1
      unfold companyKeysAt at this
      exact this.of_map
    have hstage : dedupStage store refs =
        (removeDuplicateDriversGo store refs1, refs1) := rfl
    rw [hstage]
    have hkeys1 : companyKeysAt (removeDuplicateDriversGo store refs1) refs1 =
        companyKeysAt store refs1 := by
      unfold companyKeysAt
      exact List.map_congr_left (fun r _ => driversGo_key_pointwise store refs1 r)
    have hC1 : (companyKeysAt (removeDuplicateDriversGo store refs1) refs1).Nodup := by
      rw [hkeys1]
      exact hnd1
    have hD1 : ∀ r ∈ refs1,
        companyDriversDeduped (getCompany (removeDuplicateDriversGo store refs1) r) := by
      intro r hr
      rw [driversGo_at_member store refs1 r hr hndrefs1]
      exact removeDuplicateDriversC_deduped _
    -- re-running the stage on the deduplicated output is the identity
    have hrc1 : removeDuplicateCompanies (removeDuplicateDriversGo store refs1) refs1 = refs1 := by
      unfold removeDuplicateCompanies
      by_cases he : refs1.isEmpty
      · simp [he]
      · simp only [if_neg he]
        exact companiesGo_of_nodup _ [] refs1 hC1 (by simp)
    unfold dedupStage
    rw [hrc1]
    simp only [removeDuplicateDrivers, Prod.mk.injEq, and_true]
    exact driversGo_of_fixed _ refs1
      (fun r hr => removeDuplicateDriversC_of_deduped _ (hD1 r hr))

def storeC9 : Store :=
  [⟨.success, some "C1", some "c1", some [⟨some "D1", none, some [⟨some "X"⟩]⟩], none⟩,
   ⟨.success, some "C2", some "c2", some [⟨some "D1", none, some [⟨some "Y"⟩]⟩,
     ⟨some "D2", none, some [⟨some "Z"⟩]⟩], none⟩]

/-- Witness for C9: a two-company store with distinct company keys and
per-company distinct driver keys is a fixed point of the dedup stage. -/
theorem dedup_idempotent_witness :
    dedupStage storeC9 [0, 1] = (storeC9, [0, 1]) ∧
    dedupStage (dedupStage storeC9 [0, 1]).1 (dedupStage storeC9 [0, 1]).2 =
      dedupStage storeC9 [0, 1] := by
  obtain ⟨-, hfix, hidem⟩ := dedup_idempotent storeC9 [0, 1]
  refine ⟨hfix ?_ ?_, hidem⟩
  · unfold companyKeysAt
    decide
  · intro r hr
    unfold companyDriversDeduped
    fin_cases hr <;> decide

/-! ## C5: best-result monotonicity -/

/-- The `summary.successful` count of the retained best result (0 when
nothing is retained). -/
def succOf : Option PState → Nat
  | none => 0
  | some r =>
    match r.summary with
    | none => 0
    | some s => s.successful

theorem keepBetter_cases (b r : PState) :
    keepBetter (some b) r = some b ∨ keepBetter (some b) r = some r := by
  unfold keepBetter
  rcases hr : r.summary with _ | rs <;> rcases hb : b.summary with _ | bs <;>
    simp only [hr, hb] <;> try exact Or.inl trivial
  by_cases hgt : rs.successful > bs.successful
  · rw [if_pos hgt]
    exact Or.inr rfl
  · rw [if_neg hgt]
    exact Or.inl rfl

theorem succOf_keepBetter_left (best : Option PState) (r : PState) :
    succOf best ≤ succOf (keepBetter best r) := by
  cases best with
  | none => exact Nat.zero_le _
  | some b =>
    unfold keepBetter
    rcases hr : r.summary with _ | rs <;> rcases hb : b.summary with _ | bs <;>
      simp only [hr, hb] <;> try exact Nat.le_refl _
    by_cases hgt : rs.successful > bs.successful
    · rw [if_pos hgt]
      simp only [succOf, hr, hb]
      omega
    · rw [if_neg hgt]

theorem succOf_keepBetter_right (b r : PState) (rs bs : Summary)
    (hr : r.summary = some rs) (hb : b.summary = some bs) :
    rs.successful ≤ succOf (keepBetter (some b) r) := by
  unfold keepBetter
  simp only [hr, hb]
  by_cases hgt : rs.successful > bs.successful
  · rw [if_pos hgt]
    simp [succOf, hr]
  · rw [if_neg hgt]
    simp only [succOf, hb]
    omega

theorem succOf_none_summary (r : PState) (rs : Summary) (hr : r.summary = some rs) :
    succOf (some r) = rs.successful := by
  simp [succOf, hr]

/-- The phase-1 loop only improves the retained best result: the final
best dominates the starting best, and dominates every successful
attempt made during the loop. -/
theorem phase1Go_monotone (pipeline : Nat → Except String PState)
    (hwf : ∀ i r, pipeline i = .ok r → r.summary.isSome = true) :
    ∀ rem a b0, (∀ b, b0 = some b → b.summary.isSome = true) →
    ∀ best att, phase1Go pipeline rem a b0 = .done best att →
    succOf b0 ≤ succOf best ∧
    ∀ i r s, a < i → i ≤ att → pipeline i = .ok r → r.summary = some s →
      s.successful ≤ succOf best := by
  intro rem
  induction rem with
  | zero =>
    intro a b0 hb0 best att hrun
    simp only [phase1Go, Phase1Out.done.injEq] at hrun
    obtain ⟨hb, ha⟩ := hrun
    subst hb
    exact ⟨Nat.le_refl _, fun i r s hai hia _ _ => absurd (by omega : i ≤ a) (by omega)⟩
  | succ n ih =>
    intro a b0 hb0 best att hrun
    rw [phase1Go] at hrun
    rcases hp : pipeline (a + 1) with e | r
    · rw [hp] at hrun
      cases b0 with
      | none => simp at hrun
      | some b =>
        simp only [Option.isNone_some, Bool.false_eq_true, if_false] at hrun
        obtain ⟨c1, c2⟩ := ih (a + 1) (some b) hb0 best att hrun
        refine ⟨c1, ?_⟩
        intro i r s hai hia hpi hsum
        by_cases hi : i = a + 1
        · rw [hi, hp] at hpi
          exact absurd hpi (by simp)
        · exact c2 i r s (by omega) hia hpi hsum
    · simp only [hp] at hrun
      rcases hrs : r.summary with _ | rs
      · have := hwf (a + 1) r hp
        rw [hrs] at this
        simp at this
      · simp only [hrs] at hrun
        cases b0 with
        | none =>
          simp only at hrun
          have hwfr : ∀ b1, (some r : Option PState) = some b1 → b1.summary.isSome = true := by
            intro b1 hb1
            cases hb1
            rw [hrs]
            rfl
          by_cases hf : (rs.failed == 0) = true
          · rw [if_pos hf] at hrun
            simp only [Phase1Out.done.injEq] at hrun
            obtain ⟨hb, ha⟩ := hrun
            subst hb
            refine ⟨Nat.zero_le _, ?_⟩
            intro i r1 s hai hia hpi hsum
            have hi : i = a + 1 := by omega
            rw [hi, hp] at hpi
            have hr1 : r1 = r := by
              simpa using hpi.symm
            have hs : s = rs := by
              rw [hr1, hrs] at hsum
              exact (Option.some_inj.mp hsum).symm
            rw [hs]
            simp [keepBetter, succOf, hrs]
          · rw [if_neg hf] at hrun
            obtain ⟨c1, c2⟩ := ih (a + 1) (some r) hwfr best att hrun
            refine ⟨Nat.zero_le _, ?_⟩
            intro i r1 s hai hia hpi hsum
            by_cases hi : i = a + 1
            · rw [hi, hp] at hpi
              have hr1 : r1 = r := by simpa using hpi.symm
              have hs : s = rs := by
                rw [hr1, hrs] at hsum
                exact (Option.some_inj.mp hsum).symm
              rw [hs]
              exact Nat.le_trans (by simp [succOf, hrs]) c1
            · exact c2 i r1 s (by omega) hia hpi hsum
        | some b =>
          rcases hbs : b.summary with _ | bs
          · have hwfb := hb0 b rfl
            rw [hbs] at hwfb
            simp at hwfb
          · simp only [hbs] at hrun
            have hwfkb : ∀ b1, keepBetter (some b) r = some b1 → b1.summary.isSome = true := by
              intro b1 hb1
              rcases keepBetter_cases b r with hk | hk
              · rw [hk] at hb1
                cases hb1
                rw [hbs]
                rfl
              · rw [hk] at hb1
                cases hb1
                rw [hrs]
                rfl
            by_cases hf : (rs.failed == 0) = true
            · rw [if_pos hf] at hrun
              simp only [Phase1Out.done.injEq] at hrun
              obtain ⟨hb, ha⟩ := hrun
              subst hb
              refine ⟨succOf_keepBetter_left (some b) r, ?_⟩
              intro i r1 s hai hia hpi hsum
              have hi : i = a + 1 := by omega
              rw [hi, hp] at hpi
              have hr1 : r1 = r := by simpa using hpi.symm
              have hs : s = rs := by
                rw [hr1, hrs] at hsum
                exact (Option.some_inj.mp hsum).symm
              rw [hs]
              exact succOf_keepBetter_right b r rs bs hrs hbs
            · rw [if_neg hf] at hrun
              obtain ⟨c1, c2⟩ := ih (a + 1) (keepBetter (some b) r) hwfkb best att hrun
              refine ⟨Nat.le_trans (succOf_keepBetter_left (some b) r) c1, ?_⟩
              intro i r1 s hai hia hpi hsum
              by_cases hi : i = a + 1
              · rw [hi, hp] at hpi
                have hr1 : r1 = r := by simpa using hpi.symm
                have hs : s = rs := by
                  rw [hr1, hrs] at hsum
                  exact (Option.some_inj.mp hsum).symm
                rw [hs]
                exact Nat.le_trans (succOf_keepBetter_right b r rs bs hrs hbs) c1
              · exact c2 i r1 s (by omega) hia hpi hsum

/-- C5: across the batch-retry attempts of one run the retained best
result never regresses: the final best's `successful` count dominates
the starting value and every successful attempt seen during the loop,
and the retained pointer is replaced only by a result with a strictly
higher `successful` count. -/
theorem bestResult_monotone (pipeline : Nat → Except String PState)
    (hwf : ∀ i r, pipeline i = .ok r → r.summary.isSome = true)
    (rem a : Nat) (b0 : Option PState)
    (hb0 : ∀ b, b0 = some b → b.summary.isSome = true)
    (best : Option PState) (att : Nat)
    (hrun : phase1Go pipeline rem a b0 = .done best att) :
    succOf b0 ≤ succOf best ∧
    (∀ i r s, a < i → i ≤ att → pipeline i = .ok r → r.summary = some s →
      s.successful ≤ succOf best) ∧
    (∀ b r, keepBetter (some b) r ≠ some b →
      keepBetter (some b) r = some r ∧ succOf (some b) < succOf (some r)) := by
  obtain ⟨c1, c2⟩ := phase1Go_monotone pipeline hwf rem a b0 hb0 best att hrun
  refine ⟨c1, c2, ?_⟩
  intro b r hne
  unfold keepBetter at hne ⊢
  rcases hr : r.summary with _ | rs <;> rcases hb : b.summary with _ | bs <;>
    simp only [hr, hb] at hne ⊢ <;> try exact absurd rfl hne
  by_cases hgt : rs.successful > bs.successful
  · rw [if_pos hgt] at hne ⊢
    refine ⟨rfl, ?_⟩
    rw [succOf_none_summary r rs hr, succOf_none_summary b bs hb]
    exact hgt
  · rw [if_neg hgt] at hne
    exact absurd rfl hne

def pstC5a : PState :=
  { summary := some ⟨2, 1, 1, none, none⟩, successfulResults := some [],
    failedResults := some [], allResults := some [], store := [] }

def pstC5b : PState :=
  { summary := some ⟨2, 2, 0, none, none⟩, successfulResults := some [],
    failedResults := some [], allResults := some [], store := [] }

def pipelineC5 : Nat → Except String PState :=
  fun i => if i = 1 then .ok pstC5a else .ok pstC5b

/-- Witness for C5: two attempts with 1 then 2 successes; the final
best result dominates both. -/
theorem bestResult_monotone_witness :
    (1 : Nat) ≤ succOf (some pstC5b) ∧ (2 : Nat) ≤ succOf (some pstC5b) := by
  have hwf : ∀ i r, pipelineC5 i = .ok r → r.summary.isSome = true := by
    intro i r h
    by_cases hi : i = 1 <;> simp [pipelineC5, hi] at h <;> rw [← h] <;> rfl
  have hrun : phase1Go pipelineC5 2 0 none = .done (some pstC5b) 2 := by decide
  obtain ⟨-, c2, -⟩ := bestResult_monotone pipelineC5 hwf 2 0 none (by simp)
    (some pstC5b) 2 hrun
  refine ⟨?_, ?_⟩
  · have := c2 1 pstC5a ⟨2, 1, 1, none, none⟩ (by omega) (by omega) (by rfl) rfl
    simpa using this
  · have := c2 2 pstC5b ⟨2, 2, 0, none, none⟩ (by omega) (by omega) (by rfl) rfl
    simpa using this

/-! ## C2: statistics across repeated reduction invocations -/

/-- Read the reported `processingStats` (zeros when absent). -/
def psOf (st : PState) : ProcessingStats :=
  match st.summary with
  | none => ⟨0, 0, 0, 0, 0, []⟩
  | some s => s.processingStats.getD ⟨0, 0, 0, 0, 0, []⟩

def fetchC2 : String → Except String (Option (List Driver)) :=
  fun s => if s = "a" then .ok (some [⟨some "D1", none, some [⟨some "X"⟩]⟩])
    else .error "E1"

def rosterC2 : List RosterEntry := [⟨"a", "A"⟩, ⟨"b", "B"⟩]

/-- The first reduction pass: attempt 1 of the pipeline (company `a`
succeeds with one log, company `b` fails). -/
def passOneC2 : PState := runOriginAnalysisPipeline fetchC2 rosterC2

def pipelineC2 : Nat → Except String PState := fun _ => .ok passOneC2

def fetchIndC2 : Option String → Except String (Option (List Driver)) :=
  fun c => if c = some "b" then .ok (some [⟨some "D2", none, some [⟨some "Y"⟩]⟩])
    else .error "E2"

/-- A full orchestrator run (`maxRetries = 1`) in which the individual
retry recovers company `b` and the Reduction Pipeline runs a second time
over the merged batch. -/
def runC2 : PState :=
  okOr (runOriginAnalysisWithRetry pipelineC2 fetchIndC2 { maxRetries := 1 }) emptyPState

/-- Counterexample to C2: in this run the first reduction pass counts 2
processed logs and the second (post-merge) pass counts 4; the reported
`processingStats.totalLogsProcessed` is 4 — the count of the second pass
alone — and not the sum 2 + 4 over both passes, so the second pass
replaces rather than adds to the first pass's counters. -/
theorem stats_not_cumulative_counterexample :
    (psOf passOneC2).totalLogsProcessed = 2 ∧
    runC2.summary.map (fun s => (s.successful, s.failed)) = some (2, 0) ∧
    (psOf runC2).totalLogsProcessed = 4 ∧
    (psOf runC2).totalLogsProcessed ≠ (psOf passOneC2).totalLogsProcessed + 4 := by
  refine ⟨by decide, by decide, by decide, by decide⟩

/-- C2 amended: statistics do NOT accumulate across repeated reduction
invocations within one orchestrator run — each call of
`processSmartAnalyzeResults` starts its counters from zero and the
attached `processingStats` replaces any previously attached block, so
the reported counters are exactly those of the latest reduction pass and
are independent of the counters previously stored in the summary. -/
theorem processingStats_replaced (st : PState) (sum : Summary)
    (ps0 ps1 : Option ProcessingStats) :
    (processSmartAnalyzeResults
      { st with summary := some { sum with processingStats := ps0 } }).summary =
    (processSmartAnalyzeResults
      { st with summary := some { sum with processingStats := ps1 } }).summary := rfl

/-! ## C1: conservation of log counts -/

/-- A log that no filter matches (such logs are the ones the filter
stage keeps, and re-filtering them removes nothing). -/
def logUnmatched (l : Log) : Prop :=
  ERROR_FILTERS.find? (fun f => f.matchFn l.errorMessage) = none

/-- All present logs of the driver are unmatched. -/
def driverClean (d : Driver) : Prop :=
  ∀ l ∈ d.logs.getD [], logUnmatched l

/-- All drivers of the company are clean. -/
def companyClean (c : Company) : Prop :=
  ∀ d ∈ c.data.getD [], driverClean d

theorem filterLogsGo_processed (logs : List Log) (st : Stats) :
    (filterLogsGo logs st).2.totalLogsProcessed = st.totalLogsProcessed := by
  induction logs generalizing st with
  | nil => rfl
  | cons l ls ih =>
    rcases hfind : ERROR_FILTERS.find? (fun f => f.matchFn l.errorMessage) with _ | f <;>
      simp [filterLogsGo, hfind, ih, bumpRemoved]

theorem filterLogsGo_removed (logs : List Log) (st : Stats) :
    (filterLogsGo logs st).2.totalLogsRemoved + (filterLogsGo logs st).1.length =
      st.totalLogsRemoved + logs.length := by
  induction logs generalizing st with
  | nil => rfl
  | cons l ls ih =>
    rcases hfind : ERROR_FILTERS.find? (fun f => f.matchFn l.errorMessage) with _ | f
    · have := ih st
      simp only [filterLogsGo, hfind, List.length_cons]
      omega
    · have h1 := ih (bumpRemoved st f.key)
      have h2 : (bumpRemoved st f.key).totalLogsRemoved = st.totalLogsRemoved + 1 := rfl
      simp only [filterLogsGo, hfind, List.length_cons]
      omega

theorem filterLogsGo_kept_clean (logs : List Log) (st : Stats) :
    ∀ l1 ∈ (filterLogsGo logs st).1, logUnmatched l1 := by
  induction logs generalizing st with
  | nil => intro l1 h; simp [filterLogsGo] at h
  | cons l ls ih =>
    intro l1 h
    rcases hfind : ERROR_FILTERS.find? (fun f => f.matchFn l.errorMessage) with _ | f
    · simp only [filterLogsGo, hfind, List.mem_cons] at h
      rcases h with h | h
      · rw [h]
        exact hfind
      · exact ih st l1 h
    · simp only [filterLogsGo, hfind] at h
      exact ih (bumpRemoved st f.key) l1 h

theorem filterLogsGo_of_clean (logs : List Log) (st : Stats)
    (h : ∀ l1 ∈ logs, logUnmatched l1) : filterLogsGo logs st = (logs, st) := by
  induction logs generalizing st with
  | nil => rfl
  | cons l ls ih =>
    have hl : logUnmatched l := h l (by simp)
    unfold logUnmatched at hl
    simp only [filterLogsGo, hl]
    rw [ih st (fun l1 h1 => h l1 (by simp [h1]))]

theorem scanDriver_eq (st : Stats) (d : Driver) :
    (scanDriver st d).2.totalLogsProcessed + st.totalLogsRemoved =
      st.totalLogsProcessed + (scanDriver st d).2.totalLogsRemoved +
        driverLogCount (scanDriver st d).1 := by
  rcases hl : d.logs with _ | logs
  · simp [scanDriver, hl, driverLogCount]
  · simp only [scanDriver, hl]
    have hp := filterLogsGo_processed logs
      { st with driversProcessed := st.driversProcessed + 1,
                totalLogsProcessed := st.totalLogsProcessed + logs.length }
    have hr := filterLogsGo_removed logs
      { st with driversProcessed := st.driversProcessed + 1,
                totalLogsProcessed := st.totalLogsProcessed + logs.length }
    simp only [driverLogCount]
    simp only at hp hr
    omega

theorem scanDriver_clean (st : Stats) (d : Driver) :
    driverClean (scanDriver st d).1 := by
  rcases hl : d.logs with _ | logs
  · intro l1 h1
    simp only [scanDriver, hl] at h1
    simp at h1
  · intro l1 h1
    simp only [scanDriver, hl] at h1
    simp only [Option.getD_some] at h1
    exact filterLogsGo_kept_clean logs _ l1 h1

theorem scanDriver_of_clean (st : Stats) (d : Driver) (h : driverClean d) :
    (scanDriver st d).1 = d ∧
    (scanDriver st d).2.totalLogsRemoved = st.totalLogsRemoved := by
  rcases hl : d.logs with _ | logs
  · exact ⟨by simp [scanDriver, hl], by simp [scanDriver, hl]⟩
  · have hcl : ∀ l1 ∈ logs, logUnmatched l1 := by
      intro l1 h1
      exact h l1 (by rw [hl]; simpa using h1)
    have := filterLogsGo_of_clean logs
      { st with driversProcessed := st.driversProcessed + 1,
                totalLogsProcessed := st.totalLogsProcessed + logs.length } hcl
    constructor
    · simp only [scanDriver, hl, this]
      obtain ⟨ds, di, dl⟩ := d
      simp only at hl
      simp [hl]
    · simp only [scanDriver, hl, this]

theorem scanDrivers_eq (st : Stats) (ds : List Driver) :
    (scanDrivers st ds).2.totalLogsProcessed + st.totalLogsRemoved =
      st.totalLogsProcessed + (scanDrivers st ds).2.totalLogsRemoved +
        ((scanDrivers st ds).1.map driverLogCount).sum := by
  induction ds generalizing st with
  | nil => simp [scanDrivers]
  | cons d rest ih =>
    have h1 := scanDriver_eq st d
    have h2 := ih (scanDriver st d).2
    simp only [scanDrivers, List.map_cons, List.sum_cons]
    omega

theorem scanDrivers_clean (st : Stats) (ds : List Driver) :
    ∀ d1 ∈ (scanDrivers st ds).1, driverClean d1 := by
  induction ds generalizing st with
  | nil => intro d1 h; simp [scanDrivers] at h
  | cons d rest ih =>
    intro d1 h
    simp only [scanDrivers, List.mem_cons] at h
    rcases h with h | h
    · rw [h]
      exact scanDriver_clean st d
    · exact ih (scanDriver st d).2 d1 h

theorem scanDrivers_of_clean (st : Stats) (ds : List Driver)
    (h : ∀ d1 ∈ ds, driverClean d1) :
    (scanDrivers st ds).1 = ds ∧
    (scanDrivers st ds).2.totalLogsRemoved = st.totalLogsRemoved := by
  induction ds generalizing st with
  | nil => exact ⟨rfl, rfl⟩
  | cons d rest ih =>
    obtain ⟨e1, e2⟩ := scanDriver_of_clean st d (h d (by simp))
    obtain ⟨e3, e4⟩ := ih (scanDriver st d).2 (fun d1 h1 => h d1 (by simp [h1]))
    simp only [scanDrivers]
    exact ⟨by rw [e1, e3], by rw [e4, e2]⟩

theorem scanCompany_eq (st : Stats) (c : Company) :
    (scanCompany st c).2.totalLogsProcessed + st.totalLogsRemoved =
      st.totalLogsProcessed + (scanCompany st c).2.totalLogsRemoved +
        companyLogCount (scanCompany st c).1 := by
  rcases hd : c.data with _ | ds
  · simp [scanCompany, hd, companyLogCount]
  · simp only [scanCompany, hd]
    have := scanDrivers_eq { st with companiesProcessed := st.companiesProcessed + 1 } ds
    simp only [companyLogCount]
    simp only at this
    omega

theorem scanCompany_clean (st : Stats) (c : Company) :
    companyClean (scanCompany st c).1 := by
  rcases hd : c.data with _ | ds
  · intro d1 h1
    simp only [scanCompany, hd] at h1
    simp at h1
  · intro d1 h1
    simp only [scanCompany, hd, Option.getD_some] at h1
    exact scanDrivers_clean _ ds d1 h1

theorem scanCompany_of_clean (st : Stats) (c : Company) (h : companyClean c) :
    (scanCompany st c).1 = c ∧
    (scanCompany st c).2.totalLogsRemoved = st.totalLogsRemoved := by
  rcases hd : c.data with _ | ds
  · exact ⟨by simp [scanCompany, hd], by simp [scanCompany, hd]⟩
  · have hds : ∀ d1 ∈ ds, driverClean d1 := by
      intro d1 h1
      exact h d1 (by rw [hd]; simpa using h1)
    obtain ⟨e1, e2⟩ :=
      scanDrivers_of_clean { st with companiesProcessed := st.companiesProcessed + 1 } ds hds
    constructor
    · simp only [scanCompany, hd, e1]
      obtain ⟨cs, cn, ci, cd, ce⟩ := c
      simp only at hd
      simp [hd]
    · simp only [scanCompany, hd, e2]

theorem scanCompany_default (st : Stats) :
    scanCompany st defaultCompany = (defaultCompany, st) := rfl

/-- One store pass of the filter stage: the statistics account exactly
for the logs left at the scanned references, every scanned company ends
clean, and companies that were already clean are untouched. -/
theorem filterGo_spec (store : Store) (st : Stats) (rs : List Nat) :
    ((filterErrorMessagesGo store st rs).2.totalLogsProcessed + st.totalLogsRemoved =
      st.totalLogsProcessed + (filterErrorMessagesGo store st rs).2.totalLogsRemoved +
        (rs.map (fun r =>
          companyLogCount (getCompany (filterErrorMessagesGo store st rs).1 r))).sum) ∧
    (∀ r ∈ rs, companyClean (getCompany (filterErrorMessagesGo store st rs).1 r)) ∧
    (∀ x, companyClean (getCompany store x) →
      getCompany (filterErrorMessagesGo store st rs).1 x = getCompany store x) := by
  induction rs generalizing store st with
  | nil =>
    exact ⟨by simp [filterErrorMessagesGo], by simp [filterErrorMessagesGo], fun x _ => rfl⟩
  | cons r rest ih =>
    have hstep : filterErrorMessagesGo store st (r :: rest) =
        filterErrorMessagesGo
          (setCompany store r (scanCompany st (getCompany store r)).1)
          (scanCompany st (getCompany store r)).2 rest := rfl
    obtain ⟨e1, e2, e3⟩ := ih (setCompany store r (scanCompany st (getCompany store r)).1)
      (scanCompany st (getCompany store r)).2
    have hget1 : getCompany (setCompany store r (scanCompany st (getCompany store r)).1) r =
        (scanCompany st (getCompany store r)).1 :=
      getCompany_set_image store r (fun c => (scanCompany st c).1) rfl
    have hclean1 : companyClean (scanCompany st (getCompany store r)).1 :=
      scanCompany_clean st (getCompany store r)
    have hfr : getCompany (filterErrorMessagesGo
        (setCompany store r (scanCompany st (getCompany store r)).1)
        (scanCompany st (getCompany store r)).2 rest).1 r =
        (scanCompany st (getCompany store r)).1 := by
      rw [e3 r (by rw [hget1]; exact hclean1), hget1]
    refine ⟨?_, ?_, ?_⟩
    · rw [hstep]
      have hscan := scanCompany_eq st (getCompany store r)
      simp only [List.map_cons, List.sum_cons]
      rw [hfr]
      omega
    · intro x hx
      rw [hstep]
      rcases List.mem_cons.mp hx with he | hm
      · rw [he, hfr]
        exact hclean1
      · exact e2 x hm
    · intro x hcx
      rw [hstep]
      by_cases hxr : x = r
      · subst hxr
        obtain ⟨eC, -⟩ := scanCompany_of_clean st (getCompany store x) hcx
        have hkey : getCompany (setCompany store x (scanCompany st (getCompany store x)).1) x =
            getCompany store x := by
          rw [getCompany_set_image store x (fun c => (scanCompany st c).1) rfl, eC]
        rw [e3 x (by rw [hkey]; exact hcx), hkey]
      · have hkey : getCompany (setCompany store r (scanCompany st (getCompany store r)).1) x =
            getCompany store x := getCompany_set_ne _ _ _ _ hxr
        rw [e3 x (by rw [hkey]; exact hcx), hkey]

/-- Option-level wrapper of `filterGo_spec` matching the
`if (!results) return` guard. -/
theorem filterErrorMessages_spec (store : Store) (orefs : Option (List Nat)) (st : Stats) :
    ((filterErrorMessages store orefs st).2.totalLogsProcessed + st.totalLogsRemoved =
      st.totalLogsProcessed + (filterErrorMessages store orefs st).2.totalLogsRemoved +
        refsLogCount (filterErrorMessages store orefs st).1 orefs) ∧
    (∀ rs, orefs = some rs →
      ∀ r ∈ rs, companyClean (getCompany (filterErrorMessages store orefs st).1 r)) ∧
    (∀ x, companyClean (getCompany store x) →
      getCompany (filterErrorMessages store orefs st).1 x = getCompany store x) := by
  rcases orefs with _ | rs
  · exact ⟨by simp [filterErrorMessages, refsLogCount], by simp, fun x _ => rfl⟩
  · obtain ⟨e1, e2, e3⟩ := filterGo_spec store st rs
    refine ⟨by simpa [filterErrorMessages, refsLogCount] using e1, ?_, e3⟩
    intro rs1 h1
    cases h1
    exact e2

theorem sum_filter_keepDriver (ds : List Driver) :
    ((ds.filter keepDriver).map driverLogCount).sum = (ds.map driverLogCount).sum := by
  induction ds with
  | nil => rfl
  | cons d rest ih =>
    by_cases hk : keepDriver d = true
    · simp [List.filter_cons, hk, ih]
    · have h0 : driverLogCount d = 0 := by
        rcases hl : d.logs with _ | ls
        · simp [driverLogCount, hl]
        · unfold keepDriver at hk
          rw [hl] at hk
          simp at hk
          simp [driverLogCount, hl, hk]
      simp [List.filter_cons, hk, ih, h0]

theorem companyLogCount_removeEmpty (c : Company) :
    companyLogCount (removeEmptyDriversC c) = companyLogCount c := by
  rcases hd : c.data with _ | ds
  · simp [removeEmptyDriversC, hd]
  · simp only [removeEmptyDriversC, hd, companyLogCount]
    exact sum_filter_keepDriver ds

theorem removeEmptyGo_pointwise (store : Store) (rs : List Nat) (x : Nat) :
    companyLogCount (getCompany (removeEmptyDriversGo store rs) x) =
      companyLogCount (getCompany store x) := by
  induction rs generalizing store with
  | nil => rfl
  | cons r rest ih =>
    rw [removeEmptyDriversGo, ih]
    by_cases hx : x = r
    · subst hx
      rw [getCompany_set_image store x removeEmptyDriversC rfl, companyLogCount_removeEmpty]
    · rw [getCompany_set_ne _ _ _ _ hx]

theorem removeEmpty_pointwise (store : Store) (orefs : Option (List Nat)) (x : Nat) :
    companyLogCount (getCompany (removeEmptyDrivers store orefs) x) =
      companyLogCount (getCompany store x) := by
  rcases orefs with _ | rs
  · rfl
  · exact removeEmptyGo_pointwise store rs x

theorem refsLogCount_congr_pointwise (store1 store0 : Store) (orefs : Option (List Nat))
    (h : ∀ x, companyLogCount (getCompany store1 x) = companyLogCount (getCompany store0 x)) :
    refsLogCount store1 orefs = refsLogCount store0 orefs := by
  rcases orefs with _ | rs
  · rfl
  · simp only [refsLogCount]
    exact congrArg List.sum (List.map_congr_left (fun r _ => h r))

theorem refsLogCount_congr_mem (store1 store0 : Store) (rs : List Nat)
    (h : ∀ r ∈ rs, getCompany store1 r = getCompany store0 r) :
    refsLogCount store1 (some rs) = refsLogCount store0 (some rs) := by
  simp only [refsLogCount]
  exact congrArg List.sum (List.map_congr_left (fun r hr => by rw [h r hr]))

/-- The conservation identity over the three filter passes and the three
empty-driver prunes of one reduction: the final counters account
exactly for the logs present at the references of the three arrays in
the final store (a reference scanned by more than one pass is counted
once per scan, and contributes once per occurrence to the total). -/
theorem conservation_core (store0 : Store) (osucc oall ofail : Option (List Nat))
    (p1 p2 p3 : Store × Stats) (final : Store)
    (h1 : p1 = filterErrorMessages store0 osucc initStats)
    (h2 : p2 = filterErrorMessages p1.1 oall p1.2)
    (h3 : p3 = filterErrorMessages p2.1 ofail p2.2)
    (hf : final = removeEmptyDrivers (removeEmptyDrivers
      (removeEmptyDrivers p3.1 osucc) oall) ofail) :
    p3.2.totalLogsProcessed = p3.2.totalLogsRemoved +
      (refsLogCount final osucc + refsLogCount final oall + refsLogCount final ofail) := by
  subst h1 h2 h3 hf
  obtain ⟨e11, e12, e13⟩ := filterErrorMessages_spec store0 osucc initStats
  obtain ⟨e21, e22, e23⟩ := filterErrorMessages_spec
    (filterErrorMessages store0 osucc initStats).1 oall
    (filterErrorMessages store0 osucc initStats).2
  obtain ⟨e31, e32, e33⟩ := filterErrorMessages_spec
    (filterErrorMessages (filterErrorMessages store0 osucc initStats).1 oall
      (filterErrorMessages store0 osucc initStats).2).1 ofail
    (filterErrorMessages (filterErrorMessages store0 osucc initStats).1 oall
      (filterErrorMessages store0 osucc initStats).2).2
  -- the successful-array logs survive passes 2 and 3 unchanged
  have htr1 : refsLogCount (filterErrorMessages (filterErrorMessages
      (filterErrorMessages store0 osucc initStats).1 oall
      (filterErrorMessages store0 osucc initStats).2).1 ofail
      (filterErrorMessages (filterErrorMessages store0 osucc initStats).1 oall
        (filterErrorMessages store0 osucc initStats).2).2).1 osucc =
      refsLogCount (filterErrorMessages store0 osucc initStats).1 osucc := by
    rcases osucc with _ | rs
    · rfl
    · apply refsLogCount_congr_mem
      intro r hr
      have hc1 : companyClean (getCompany (filterErrorMessages store0 (some rs) initStats).1 r) :=
        e12 rs rfl r hr
      have hv2 := e23 r hc1
      have hc2 : companyClean (getCompany (filterErrorMessages
          (filterErrorMessages store0 (some rs) initStats).1 oall
          (filterErrorMessages store0 (some rs) initStats).2).1 r) := by
        rw [hv2]
        exact hc1
      rw [e33 r hc2, hv2]
  -- the all-array logs survive pass 3 unchanged
  have htr2 : refsLogCount (filterErrorMessages (filterErrorMessages
      (filterErrorMessages store0 osucc initStats).1 oall
      (filterErrorMessages store0 osucc initStats).2).1 ofail
      (filterErrorMessages (filterErrorMessages store0 osucc initStats).1 oall
        (filterErrorMessages store0 osucc initStats).2).2).1 oall =
      refsLogCount (filterErrorMessages (filterErrorMessages store0 osucc initStats).1 oall
        (filterErrorMessages store0 osucc initStats).2).1 oall := by
    rcases oall with _ | rs
    · rfl
    · apply refsLogCount_congr_mem
      intro r hr
      exact e33 r (e22 rs rfl r hr)
  -- pruning empty drivers never changes a log count
  have hpr : ∀ orefs1, refsLogCount (removeEmptyDrivers (removeEmptyDrivers
      (removeEmptyDrivers (filterErrorMessages (filterErrorMessages
        (filterErrorMessages store0 osucc initStats).1 oall
        (filterErrorMessages store0 osucc initStats).2).1 ofail
        (filterErrorMessages (filterErrorMessages store0 osucc initStats).1 oall
          (filterErrorMessages store0 osucc initStats).2).2).1 osucc) oall) ofail) orefs1 =
      refsLogCount (filterErrorMessages (filterErrorMessages
        (filterErrorMessages store0 osucc initStats).1 oall
        (filterErrorMessages store0 osucc initStats).2).1 ofail
        (filterErrorMessages (filterErrorMessages store0 osucc initStats).1 oall
          (filterErrorMessages store0 osucc initStats).2).2).1 orefs1 := by
    intro orefs1
    apply refsLogCount_congr_pointwise
    intro x
    rw [removeEmpty_pointwise, removeEmpty_pointwise, removeEmpty_pointwise]
  have hz1 : initStats.totalLogsProcessed = 0 := rfl
  have hz2 : initStats.totalLogsRemoved = 0 := rfl
  rw [hpr osucc, hpr oall, hpr ofail, htr1, htr2]
  omega

/-- C1: after one full reduction pass the reported statistics satisfy
`totalLogsProcessed = totalLogsRemoved + remainingLogs`, and
`remainingLogs` equals the number of log records present in the reduced
output, where logs are counted once per containing result array (the
three arrays share company objects, and both the scan and the
serialized output visit a shared company once per array it appears in). -/
theorem logCount_conservation (st : PState) (sum1 : Summary) (ps : ProcessingStats)
    (hsum : (processSmartAnalyzeResults st).summary = some sum1)
    (hps : sum1.processingStats = some ps) :
    ps.totalLogsProcessed = ps.totalLogsRemoved + ps.remainingLogs ∧
    ps.remainingLogs = outputLogCount (processSmartAnalyzeResults st) := by
  set osucc := st.successfulResults.map (removeDuplicateCompanies st.store) with hosucc
  set oall := st.allResults.map (removeDuplicateCompanies st.store) with hoall
  set ofail := st.failedResults.map (removeDuplicateCompanies st.store) with hofail
  set store0 := removeDuplicateDrivers (removeDuplicateDrivers
    (removeDuplicateDrivers st.store osucc) oall) ofail with hstore0
  set p3 := filterErrorMessages (filterErrorMessages
    (filterErrorMessages store0 osucc initStats).1 oall
    (filterErrorMessages store0 osucc initStats).2).1 ofail
    (filterErrorMessages (filterErrorMessages store0 osucc initStats).1 oall
      (filterErrorMessages store0 osucc initStats).2).2 with hp3
  set final := removeEmptyDrivers (removeEmptyDrivers
    (removeEmptyDrivers p3.1 osucc) oall) ofail with hfinal
  have hcore := conservation_core store0 osucc oall ofail _ _ p3 final rfl rfl hp3 hfinal
  have hstruct : processSmartAnalyzeResults st =
      { summary := st.summary.map (fun s => { s with processingStats := some (
          { totalLogsProcessed := p3.2.totalLogsProcessed
            totalLogsRemoved := p3.2.totalLogsRemoved
            remainingLogs := p3.2.totalLogsProcessed - p3.2.totalLogsRemoved
            companiesProcessed := p3.2.companiesProcessed
            driversProcessed := p3.2.driversProcessed
            warningsRemoved := p3.2.warningsRemoved } : ProcessingStats) })
        successfulResults := osucc
        failedResults := ofail
        allResults := oall
        store := final } := by
    rw [hfinal, hp3, hstore0, hosucc, hoall, hofail]
    rfl
  have hout : outputLogCount (processSmartAnalyzeResults st) =
      refsLogCount final osucc + refsLogCount final oall + refsLogCount final ofail := by
    rw [hstruct]
    rfl
  rcases hs0 : st.summary with _ | s0
  · rw [hstruct] at hsum
    simp only [hs0] at hsum
    exact absurd hsum (by simp)
  · rw [hstruct] at hsum
    simp only [hs0, Option.map_some] at hsum
    have hsum1 : ({ s0 with processingStats := some (
        { totalLogsProcessed := p3.2.totalLogsProcessed,
          totalLogsRemoved := p3.2.totalLogsRemoved,
          remainingLogs := p3.2.totalLogsProcessed - p3.2.totalLogsRemoved,
          companiesProcessed := p3.2.companiesProcessed,
          driversProcessed := p3.2.driversProcessed,
          warningsRemoved := p3.2.warningsRemoved } : ProcessingStats) } : Summary) = sum1 :=
      Option.some_inj.mp hsum
    rw [← hsum1] at hps
    have hpse : (
        { totalLogsProcessed := p3.2.totalLogsProcessed,
          totalLogsRemoved := p3.2.totalLogsRemoved,
          remainingLogs := p3.2.totalLogsProcessed - p3.2.totalLogsRemoved,
          companiesProcessed := p3.2.companiesProcessed,
          driversProcessed := p3.2.driversProcessed,
          warningsRemoved := p3.2.warningsRemoved } : ProcessingStats) = ps :=
      Option.some_inj.mp hps
    have e1 : ps.totalLogsProcessed = p3.2.totalLogsProcessed := by
      rw [← hpse]
    have e2 : ps.totalLogsRemoved = p3.2.totalLogsRemoved := by
      rw [← hpse]
    have e3 : ps.remainingLogs = p3.2.totalLogsProcessed - p3.2.totalLogsRemoved := by
      rw [← hpse]
    refine ⟨?_, ?_⟩
    · rw [e1, e2, e3]
      omega
    · rw [e3, hout]
      omega

def stC1 : PState :=
  { summary := some ⟨1, 1, 0, none, none⟩
    successfulResults := some [0]
    failedResults := some []
    allResults := some [0]
    store := [⟨.success, some "C1", some "c1",
      some [⟨some "D1", none,
        some [⟨some "SEQUENTIAL ID BREAK WARNING"⟩, ⟨some "REAL EVENT"⟩]⟩], none⟩] }

def psC1 : ProcessingStats :=
  ⟨3, 1, 2, 2, 2, bumpKey initStats.warningsRemoved "sequentialIdBreak"⟩

def sumC1 : Summary := ⟨1, 1, 0, some psC1, none⟩

/-- Witness for C1: one company shared between `successfulResults` and
`allResults` with two logs, one of which is filtered out; the processor
reports 3 processed, 1 removed, 2 remaining, and exactly 2 log records
are present in the output (1 in the success array plus 1 in the all
array). -/
theorem logCount_conservation_witness :
    psC1.totalLogsProcessed = psC1.totalLogsRemoved + psC1.remainingLogs ∧
    psC1.remainingLogs = outputLogCount (processSmartAnalyzeResults stC1) := by
  exact logCount_conservation stC1 sumC1 psC1 (by decide) (by decide)

/-! ## Pointwise preservation of company identity through the processor

The reduction pipeline mutates only `data` (drivers/logs): the identity
and error fields of every company in the store are untouched.  These
lemmas are stated for an arbitrary projection `g` that the three
per-company transforms preserve. -/

theorem removeDuplicateDriversC_data_only (c : Company) :
    (removeDuplicateDriversC c).status = c.status ∧
    (removeDuplicateDriversC c).companyName = c.companyName ∧
    (removeDuplicateDriversC c).companyId = c.companyId ∧
    (removeDuplicateDriversC c).error = c.error := by
  unfold removeDuplicateDriversC
  rcases c.data with _ | ds <;> exact ⟨rfl, rfl, rfl, rfl⟩

theorem scanCompany_data_only (st : Stats) (c : Company) :
    (scanCompany st c).1.status = c.status ∧
    (scanCompany st c).1.companyName = c.companyName ∧
    (scanCompany st c).1.companyId = c.companyId ∧
    (scanCompany st c).1.error = c.error := by
  unfold scanCompany
  rcases c.data with _ | ds <;> exact ⟨rfl, rfl, rfl, rfl⟩

theorem removeEmptyDriversC_data_only (c : Company) :
    (removeEmptyDriversC c).status = c.status ∧
    (removeEmptyDriversC c).companyName = c.companyName ∧
    (removeEmptyDriversC c).companyId = c.companyId ∧
    (removeEmptyDriversC c).error = c.error := by
  unfold removeEmptyDriversC
  rcases c.data with _ | ds <;> exact ⟨rfl, rfl, rfl, rfl⟩

theorem filterGo_g_pointwise {α : Type} (g : Company → α)
    (hg : ∀ st c, g ((scanCompany st c).1) = g c) :
    ∀ (store : Store) (st : Stats) (rs : List Nat) (x : Nat),
    g (getCompany (filterErrorMessagesGo store st rs).1 x) = g (getCompany store x) := by
  intro store st rs
  induction rs generalizing store st with
  | nil => intro x; rfl
  | cons r rest ih =>
    intro x
    have hstep : filterErrorMessagesGo store st (r :: rest) =
        filterErrorMessagesGo
          (setCompany store r (scanCompany st (getCompany store r)).1)
          (scanCompany st (getCompany store r)).2 rest := rfl
    rw [hstep, ih]
    by_cases hx : x = r
    · subst hx
      rw [getCompany_set_image store x (fun c => (scanCompany st c).1) rfl, hg]
    · rw [getCompany_set_ne _ _ _ _ hx]

theorem emptyGo_g_pointwise {α : Type} (g : Company → α)
    (hg : ∀ c, g (removeEmptyDriversC c) = g c) :
    ∀ (store : Store) (rs : List Nat) (x : Nat),
    g (getCompany (removeEmptyDriversGo store rs) x) = g (getCompany store x) := by
  intro store rs
  induction rs generalizing store with
  | nil => intro x; rfl
  | cons r rest ih =>
    intro x
    rw [removeEmptyDriversGo, ih]
    by_cases hx : x = r
    · subst hx
      rw [getCompany_set_image store x removeEmptyDriversC rfl, hg]
    · rw [getCompany_set_ne _ _ _ _ hx]

theorem driversGo_g_pointwise {α : Type} (g : Company → α)
    (hg : ∀ c, g (removeDuplicateDriversC c) = g c) :
    ∀ (store : Store) (rs : List Nat) (x : Nat),
    g (getCompany (removeDuplicateDriversGo store rs) x) = g (getCompany store x) := by
  intro store rs
  induction rs generalizing store with
  | nil => intro x; rfl
  | cons r rest ih =>
    intro x
    rw [removeDuplicateDriversGo, ih]
    by_cases hx : x = r
    · subst hx
      rw [getCompany_set_image store x removeDuplicateDriversC
        removeDuplicateDriversC_default, hg]
    · rw [getCompany_set_ne _ _ _ _ hx]

theorem filterEM_g_pointwise {α : Type} (g : Company → α)
    (hg : ∀ st c, g ((scanCompany st c).1) = g c)
    (store : Store) (orefs : Option (List Nat)) (st : Stats) (x : Nat) :
    g (getCompany (filterErrorMessages store orefs st).1 x) = g (getCompany store x) := by
  rcases orefs with _ | rs
  · rfl
  · exact filterGo_g_pointwise g hg store st rs x

theorem emptyEM_g_pointwise {α : Type} (g : Company → α)
    (hg : ∀ c, g (removeEmptyDriversC c) = g c)
    (store : Store) (orefs : Option (List Nat)) (x : Nat) :
    g (getCompany (removeEmptyDrivers store orefs) x) = g (getCompany store x) := by
  rcases orefs with _ | rs
  · rfl
  · exact emptyGo_g_pointwise g hg store rs x

theorem driversEM_g_pointwise {α : Type} (g : Company → α)
    (hg : ∀ c, g (removeDuplicateDriversC c) = g c)
    (store : Store) (orefs : Option (List Nat)) (x : Nat) :
    g (getCompany (removeDuplicateDrivers store orefs) x) = g (getCompany store x) := by
  rcases orefs with _ | rs
  · rfl
  · exact driversGo_g_pointwise g hg store rs x

/-- The processor never changes a company's status, name, id or error
anywhere in the store. -/
theorem process_g_pointwise {α : Type} (g : Company → α)
    (hg1 : ∀ c, g (removeDuplicateDriversC c) = g c)
    (hg2 : ∀ st1 c, g ((scanCompany st1 c).1) = g c)
    (hg3 : ∀ c, g (removeEmptyDriversC c) = g c)
    (st : PState) (x : Nat) :
    g (getCompany (processSmartAnalyzeResults st).store x) = g (getCompany st.store x) := by
  have hstore : (processSmartAnalyzeResults st).store =
      removeEmptyDrivers (removeEmptyDrivers (removeEmptyDrivers
        (filterErrorMessages (filterErrorMessages (filterErrorMessages
          (removeDuplicateDrivers (removeDuplicateDrivers (removeDuplicateDrivers st.store
            (st.successfulResults.map (removeDuplicateCompanies st.store)))
            (st.allResults.map (removeDuplicateCompanies st.store)))
            (st.failedResults.map (removeDuplicateCompanies st.store)))
          (st.successfulResults.map (removeDuplicateCompanies st.store)) initStats).1
          (st.allResults.map (removeDuplicateCompanies st.store))
          (filterErrorMessages
            (removeDuplicateDrivers (removeDuplicateDrivers (removeDuplicateDrivers st.store
              (st.successfulResults.map (removeDuplicateCompanies st.store)))
              (st.allResults.map (removeDuplicateCompanies st.store)))
              (st.failedResults.map (removeDuplicateCompanies st.store)))
            (st.successfulResults.map (removeDuplicateCompanies st.store)) initStats).2).1
          (st.failedResults.map (removeDuplicateCompanies st.store))
          (filterErrorMessages (filterErrorMessages
            (removeDuplicateDrivers (removeDuplicateDrivers (removeDuplicateDrivers st.store
              (st.successfulResults.map (removeDuplicateCompanies st.store)))
              (st.allResults.map (removeDuplicateCompanies st.store)))
              (st.failedResults.map (removeDuplicateCompanies st.store)))
            (st.successfulResults.map (removeDuplicateCompanies st.store)) initStats).1
            (st.allResults.map (removeDuplicateCompanies st.store))
            (filterErrorMessages
              (removeDuplicateDrivers (removeDuplicateDrivers (removeDuplicateDrivers st.store
                (st.successfulResults.map (removeDuplicateCompanies st.store)))
                (st.allResults.map (removeDuplicateCompanies st.store)))
                (st.failedResults.map (removeDuplicateCompanies st.store)))
              (st.successfulResults.map (removeDuplicateCompanies st.store)) initStats).2).2).1
        (st.successfulResults.map (removeDuplicateCompanies st.store)))
        (st.allResults.map (removeDuplicateCompanies st.store)))
        (st.failedResults.map (removeDuplicateCompanies st.store)) := rfl
  rw [hstore]
  rw [emptyEM_g_pointwise g hg3, emptyEM_g_pointwise g hg3, emptyEM_g_pointwise g hg3,
    filterEM_g_pointwise g hg2, filterEM_g_pointwise g hg2, filterEM_g_pointwise g hg2,
    driversEM_g_pointwise g hg1, driversEM_g_pointwise g hg1, driversEM_g_pointwise g hg1]

theorem process_id_pointwise (st : PState) (x : Nat) :
    (getCompany (processSmartAnalyzeResults st).store x).companyId =
      (getCompany st.store x).companyId :=
  process_g_pointwise (fun c => c.companyId)
    (fun c => (removeDuplicateDriversC_data_only c).2.2.1)
    (fun st1 c => (scanCompany_data_only st1 c).2.2.1)
    (fun c => (removeEmptyDriversC_data_only c).2.2.1) st x

theorem process_error_pointwise (st : PState) (x : Nat) :
    (getCompany (processSmartAnalyzeResults st).store x).error =
      (getCompany st.store x).error :=
  process_g_pointwise (fun c => c.error)
    (fun c => (removeDuplicateDriversC_data_only c).2.2.2)
    (fun st1 c => (scanCompany_data_only st1 c).2.2.2)
    (fun c => (removeEmptyDriversC_data_only c).2.2.2) st x

/-! ## Lemmas about the individual-retry loop and allocation -/

theorem individualRetryGo_length (fetch : Option String → Except String (Option (List Driver)))
    (store : Store) (rs : List Nat) :
    (individualRetryGo fetch store rs).length = rs.length := by
  induction rs with
  | nil => rfl
  | cons r rest ih => simp [individualRetryGo, ih]

theorem individualRetryGo_ids (fetch : Option String → Except String (Option (List Driver)))
    (store : Store) (rs : List Nat) :
    (individualRetryGo fetch store rs).map (fun c => c.companyId) = idsAt store rs := by
  induction rs with
  | nil => rfl
  | cons r rest ih =>
    simp only [individualRetryGo, List.map_cons, idsAt, ih]
    rcases fetch (getCompany store r).companyId with e | d <;> simp [idsAt]

/-- A retry record is tagged failed exactly when it carries an error. -/
theorem individualRetryGo_failed_error
    (fetch : Option String → Except String (Option (List Driver)))
    (store : Store) (rs : List Nat) :
    ∀ c ∈ individualRetryGo fetch store rs, c.status = .failed → c.error.isSome = true := by
  induction rs with
  | nil => intro c hc; simp [individualRetryGo] at hc
  | cons r rest ih =>
    intro c hc hst
    simp only [individualRetryGo, List.mem_cons] at hc
    rcases hc with hc | hc
    · subst hc
      rcases hf : fetch (getCompany store r).companyId with e | d
      · rfl
      · rw [hf] at hst
        exact CStatus.noConfusion hst
    · exact ih c hc hst

theorem map_getD_range {α : Type} (ls : List Company) (g : Company → α) :
    (List.range ls.length).map (fun i => g (ls.getD i defaultCompany)) = ls.map g := by
  induction ls with
  | nil => rfl
  | cons c cs ih =>
    rw [List.length_cons, List.range_succ_eq_map, List.map_cons, List.map_map]
    congr 1

/-- Identities of the freshly allocated records at the end of the store. -/
theorem idsAt_alloc (store : Store) (ls : List Company) :
    idsAt (store ++ ls) ((List.range ls.length).map (fun i => i + store.length)) =
      ls.map (fun c => c.companyId) := by
  unfold idsAt
  rw [List.map_map]
  rw [show ((fun r => (getCompany (store ++ ls) r).companyId) ∘ (fun i => i + store.length)) =
    (fun i => (ls.getD i defaultCompany).companyId) from funext (fun i => by
      show (getCompany (store ++ ls) (i + store.length)).companyId = _
      unfold getCompany
      rw [List.getD_append_right store ls defaultCompany (i + store.length)
        (Nat.le_add_left _ _), Nat.add_sub_cancel])]
  exact map_getD_range ls (fun c => c.companyId)

theorem getCompany_append_left (store ext : Store) (r : Nat) (h : r < store.length) :
    getCompany (store ++ ext) r = getCompany store r := by
  unfold getCompany
  exact List.getD_append _ _ _ _ h

/-- A reference whose company has a present id is inside the store. -/
theorem lt_length_of_id_isSome (store : Store) (r : Nat)
    (h : (getCompany store r).companyId.isSome = true) : r < store.length := by
  by_contra hge
  rw [getCompany_oob store r (Nat.le_of_not_lt hge)] at h
  simp [defaultCompany] at h

theorem truthy_isSome (v : Option String) (h : truthy v = true) : v.isSome = true := by
  cases v
  · simp [truthy] at h
  · rfl

theorem companyKey_eq_id (c : Company) (h : truthy c.companyId = true) :
    companyKey c = c.companyId := by
  unfold companyKey jsOr
  rw [if_pos h]

theorem idsAt_append_left (store ext : Store) (rs : List Nat)
    (h : ∀ r ∈ rs, r < store.length) :
    idsAt (store ++ ext) rs = idsAt store rs := by
  unfold idsAt
  exact List.map_congr_left (fun r hr => by rw [getCompany_append_left _ _ _ (h r hr)])

theorem projAt_alloc {α : Type} (g : Company → α) (store : Store) (ls : List Company) :
    ((List.range ls.length).map (fun i => i + store.length)).map
      (fun r => g (getCompany (store ++ ls) r)) = ls.map g := by
  rw [List.map_map]
  rw [show ((fun r => g (getCompany (store ++ ls) r)) ∘ (fun i => i + store.length)) =
    (fun i => g (ls.getD i defaultCompany)) from funext (fun i => by
      show g (getCompany (store ++ ls) (i + store.length)) = _
      unfold getCompany
      rw [List.getD_append_right store ls defaultCompany (i + store.length)
        (Nat.le_add_left _ _), Nat.add_sub_cancel])]
  exact map_getD_range ls g

theorem status_filter_perm (l : List Company) :
    List.Perm (l.filter (fun c => c.status == CStatus.success) ++
      l.filter (fun c => c.status == CStatus.failed)) l := by
  have hcongr : l.filter (fun c => c.status == CStatus.failed) =
      l.filter (fun c => !(c.status == CStatus.success)) :=
    List.filter_congr (fun c _ => cstatus_failed_eq_not_success c)
  rw [hcongr]
  exact List.filter_append_perm _ l

theorem removeDuplicateCompanies_of_nodup (store : Store) (refs : List Nat)
    (h : (companyKeysAt store refs).Nodup) :
    removeDuplicateCompanies store refs = refs := by
  unfold removeDuplicateCompanies
  by_cases he : refs.isEmpty
  · simp [he]
  · simp only [if_neg he]
    exact companiesGo_of_nodup store [] refs h (by simp)

theorem idsAt_append (store : Store) (a b : List Nat) :
    idsAt store (a ++ b) = idsAt store a ++ idsAt store b := by
  unfold idsAt
  exact List.map_append _ _ _

theorem companyKeysAt_append (store : Store) (a b : List Nat) :
    companyKeysAt store (a ++ b) = companyKeysAt store a ++ companyKeysAt store b := by
  unfold companyKeysAt
  exact List.map_append _ _ _

theorem process_summary_isSome (st : PState) (s : Summary) (h : st.summary = some s) :
    ∃ s1, (processSmartAnalyzeResults st).summary = some s1 ∧
      s1.processingStats.isSome = true := by
  unfold processSmartAnalyzeResults
  simp only [h, Option.map_some]
  exact ⟨_, rfl, rfl⟩

theorem companyKeysAt_eq_idsAt (store : Store) (rs : List Nat)
    (h : ∀ r ∈ rs, truthy (getCompany store r).companyId = true) :
    companyKeysAt store rs = idsAt store rs := by
  unfold companyKeysAt idsAt
  exact List.map_congr_left (fun r hr => companyKey_eq_id _ (h r hr))

/-- The individual-retry merge (performed only when at least one entity
recovered): the batch keeps one record per entity, the failure list is
exactly the still-failing retry outcomes with their errors, `allResults`
is the concatenation of the success and failure lists, no id occurs in
both, and the summary is recomputed with fresh processing statistics. -/
theorem individualRetryPhase_merge
    (fetch : Option String → Except String (Option (List Driver)))
    (best : PState) (s : Summary) (srefs frefs : List Nat)
    (hs : best.summary = some s)
    (hsr : best.successfulResults = some srefs)
    (hfr : best.failedResults = some frefs)
    (hids : ∀ v ∈ idsAt best.store (srefs ++ frefs), truthy v = true)
    (hnd : (idsAt best.store (srefs ++ frefs)).Nodup)
    (hrec : (individualRetryGo fetch best.store frefs).filter
      (fun c => c.status == CStatus.success) ≠ [])
    (res : PState)
    (hres : individualRetryPhase fetch best = .ok res) :
    ∃ srefs1 frefs1,
      res.successfulResults = some srefs1 ∧
      res.failedResults = some frefs1 ∧
      res.allResults = some (srefs1 ++ frefs1) ∧
      (srefs1 ++ frefs1).length = (srefs ++ frefs).length ∧
      idsAt res.store srefs1 = idsAt best.store srefs ++
        ((individualRetryGo fetch best.store frefs).filter
          (fun c => c.status == CStatus.success)).map (fun c => c.companyId) ∧
      idsAt res.store frefs1 = ((individualRetryGo fetch best.store frefs).filter
        (fun c => c.status == CStatus.failed)).map (fun c => c.companyId) ∧
      frefs1.map (fun r => (getCompany res.store r).error) =
        ((individualRetryGo fetch best.store frefs).filter
          (fun c => c.status == CStatus.failed)).map (fun c => c.error) ∧
      (idsAt res.store srefs1).Disjoint (idsAt res.store frefs1) ∧
      ∃ s1, res.summary = some s1 ∧ s1.successful = srefs1.length ∧
        s1.failed = frefs1.length ∧ s1.totalCompanies = srefs1.length + frefs1.length ∧
        s1.processingStats.isSome = true := by
  unfold individualRetryPhase at hres
  simp only [hfr] at hres
  set rts := individualRetryGo fetch best.store frefs with hrts
  set ns := rts.filter (fun c => c.status == CStatus.success) with hns
  set sf := rts.filter (fun c => c.status == CStatus.failed) with hsf
  have hlen : ns.length > 0 := List.length_pos_of_ne_nil hrec
  rw [if_pos hlen] at hres
  simp only [hsr] at hres
  set merged := mergeRetryResults best srefs ns sf with hmerged
  set processed := processSmartAnalyzeResults merged with hprocessed
  -- reference bounds for the retained arrays
  have hbound : ∀ r ∈ srefs ++ frefs, r < best.store.length := by
    intro r hr
    apply lt_length_of_id_isSome
    apply truthy_isSome
    apply hids
    unfold idsAt
    exact List.mem_map_of_mem _ hr
  -- the merged store and its reference lists
  have hstoreM : merged.store = (best.store ++ ns) ++ sf := rfl
  have hsuccM : merged.successfulResults =
      some (srefs ++ (List.range ns.length).map (fun i => i + best.store.length)) := rfl
  have hfailM : merged.failedResults =
      some ((List.range sf.length).map (fun i => i + (best.store.length + ns.length))) := rfl
  -- identities of the three segments at the merged store
  have hids_srefs : idsAt merged.store srefs = idsAt best.store srefs := by
    rw [hstoreM]
    rw [idsAt_append_left _ _ _ (fun r hr => by
      rw [List.length_append]
      have := hbound r (by simp [hr])
      omega)]
    exact idsAt_append_left _ _ _ (fun r hr => hbound r (by simp [hr]))
  have hids_ns : idsAt merged.store
      ((List.range ns.length).map (fun i => i + best.store.length)) =
      ns.map (fun c => c.companyId) := by
    rw [hstoreM]
    rw [idsAt_append_left _ _ _ (fun r hr => by
      rcases List.mem_map.mp hr with ⟨i, hi, hri⟩
      rw [List.length_append, ← hri]
      have := List.mem_range.mp hi
      omega)]
    exact projAt_alloc (fun c => c.companyId) best.store ns
  have hids_sf : idsAt merged.store
      ((List.range sf.length).map (fun i => i + (best.store.length + ns.length))) =
      sf.map (fun c => c.companyId) := by
    rw [hstoreM]
    rw [show (fun i => i + (best.store.length + ns.length)) =
      (fun i => i + (best.store ++ ns).length) from funext (fun i => by
        rw [List.length_append])]
    exact projAt_alloc (fun c => c.companyId) (best.store ++ ns) sf
  have herr_sf : ((List.range sf.length).map
        (fun i => i + (best.store.length + ns.length))).map
      (fun r => (getCompany merged.store r).error) = sf.map (fun c => c.error) := by
    rw [hstoreM]
    rw [show (fun i => i + (best.store.length + ns.length)) =
      (fun i => i + (best.store ++ ns).length) from funext (fun i => by
        rw [List.length_append])]
    exact projAt_alloc (fun c => c.error) (best.store ++ ns) sf
  -- permutation of identities after the retry partition
  have hperm1 : List.Perm (ns.map (fun c => c.companyId) ++ sf.map (fun c => c.companyId))
      (idsAt best.store frefs) := by
    rw [← List.map_append]
    have := (status_filter_perm rts).map (fun c => c.companyId)
    rw [hrts] at this
    rw [individualRetryGo_ids] at this
    exact this
  -- short names for the two rebuilt reference lists
  set SUCC := srefs ++ (List.range ns.length).map (fun i => i + best.store.length)
    with hSUCC
  set FAIL := (List.range sf.length).map (fun i => i + (best.store.length + ns.length))
    with hFAIL
  -- id permutation and uniqueness over the merged store
  have hpermAll : List.Perm (idsAt merged.store (SUCC ++ FAIL))
      (idsAt best.store (srefs ++ frefs)) := by
    rw [idsAt_append, hSUCC, idsAt_append, hids_srefs, hids_ns, hids_sf,
      idsAt_append, List.append_assoc]
    exact List.Perm.append_left _ hperm1
  have hndAll : (idsAt merged.store (SUCC ++ FAIL)).Nodup := hpermAll.nodup_iff.mpr hnd
  have htruthyAll : ∀ r ∈ SUCC ++ FAIL,
      truthy (getCompany merged.store r).companyId = true := by
    intro r hr
    apply hids
    apply hpermAll.mem_iff.mp
    unfold idsAt
    exact List.mem_map_of_mem _ hr
  have hkndAll : (companyKeysAt merged.store (SUCC ++ FAIL)).Nodup := by
    rw [companyKeysAt_eq_idsAt _ _ htruthyAll]
    exact hndAll
  have hkndS : (companyKeysAt merged.store SUCC).Nodup := by
    have h := hkndAll
    rw [companyKeysAt_append] at h
    exact h.of_append_left
  have hkndF : (companyKeysAt merged.store FAIL).Nodup := by
    have h := hkndAll
    rw [companyKeysAt_append] at h
    exact h.of_append_right
  have hd_succ : removeDuplicateCompanies merged.store SUCC = SUCC :=
    removeDuplicateCompanies_of_nodup _ _ hkndS
  have hd_fail : removeDuplicateCompanies merged.store FAIL = FAIL :=
    removeDuplicateCompanies_of_nodup _ _ hkndF
  have hd_all : removeDuplicateCompanies merged.store (SUCC ++ FAIL) = SUCC ++ FAIL :=
    removeDuplicateCompanies_of_nodup _ _ hkndAll
  -- the structural lists of the merged state
  have hMall : merged.allResults = some (SUCC ++ FAIL) := by
    rw [hmerged, hSUCC, hFAIL]
    rfl
  -- the processor keeps the reference lists (dedup is the identity here)
  have hPsucc : processed.successfulResults = some SUCC := by
    rw [hprocessed]
    show (merged.successfulResults).map (removeDuplicateCompanies merged.store) = some SUCC
    rw [hsuccM]
    show some (removeDuplicateCompanies merged.store SUCC) = some SUCC
    rw [hd_succ]
  have hPfail : processed.failedResults = some FAIL := by
    rw [hprocessed]
    show (merged.failedResults).map (removeDuplicateCompanies merged.store) = some FAIL
    rw [hfailM]
    show some (removeDuplicateCompanies merged.store FAIL) = some FAIL
    rw [hd_fail]
  have hPall : processed.allResults = some (SUCC ++ FAIL) := by
    rw [hprocessed]
    show (merged.allResults).map (removeDuplicateCompanies merged.store) =
      some (SUCC ++ FAIL)
    rw [hMall]
    show some (removeDuplicateCompanies merged.store (SUCC ++ FAIL)) = some (SUCC ++ FAIL)
    rw [hd_all]
  -- the processor rewrites the summary, keeping a present processingStats
  obtain ⟨s1, hPsum1, hPstats⟩ :=
    process_summary_isSome merged s (by rw [hmerged]; exact hs)
  have hPsum2 : processed.summary = some s1 := by
    rw [hprocessed]
    exact hPsum1
  -- the processor only rewrites driver data: ids and errors survive pointwise
  have hidsP : ∀ rs : List Nat, idsAt processed.store rs = idsAt merged.store rs := by
    intro rs
    rw [hprocessed]
    unfold idsAt
    exact List.map_congr_left (fun r _ => process_id_pointwise merged r)
  have herrP : ∀ rs : List Nat, rs.map (fun r => (getCompany processed.store r).error) =
      rs.map (fun r => (getCompany merged.store r).error) := by
    intro rs
    rw [hprocessed]
    exact List.map_congr_left (fun r _ => process_error_pointwise merged r)
  -- length bookkeeping
  have hlr : ns.length + sf.length = frefs.length := by
    have h := hperm1.length_eq
    simp only [List.length_append, List.length_map, idsAt] at h
    exact h
  -- reduce the final match of the phase body
  simp only [hPsum2, hPsucc, hPfail, hPall] at hres
  injection hres with hres1
  subst hres1
  refine ⟨SUCC, FAIL, rfl, rfl, rfl, ?_, ?_, ?_, ?_, ?_, ?_⟩
  · rw [hSUCC, hFAIL]
    simp only [List.length_append, List.length_map, List.length_range]
    omega
  · refine (hidsP SUCC).trans ?_
    rw [hSUCC, idsAt_append, hids_srefs, hids_ns]
  · exact (hidsP FAIL).trans hids_sf
  · exact (herrP FAIL).trans herr_sf
  · have h8 : (idsAt merged.store SUCC ++ idsAt merged.store FAIL).Nodup := by
      rw [← idsAt_append]
      exact hndAll
    have h9 := List.disjoint_of_nodup_append h8
    rw [← hidsP SUCC, ← hidsP FAIL] at h9
    exact h9
  · refine ⟨_, rfl, rfl, rfl, ?_, hPstats⟩
    simp

/-- When no retried company recovered, the guard of line 139 skips the
merge entirely and the phase returns the retained best result unchanged. -/
theorem individualRetryPhase_zero (fetch : Option String → Except String (Option (List Driver)))
    (best : PState) (frefs : List Nat) (hfr : best.failedResults = some frefs)
    (hz : (individualRetryGo fetch best.store frefs).filter
      (fun c => c.status == CStatus.success) = []) :
    individualRetryPhase fetch best = .ok best := by
  unfold individualRetryPhase
  simp only [hfr]
  rw [if_neg (by simp [hz])]

theorem process_succ_eq (st : PState) : (processSmartAnalyzeResults st).successfulResults =
    st.successfulResults.map (removeDuplicateCompanies st.store) := rfl

theorem process_fail_eq (st : PState) : (processSmartAnalyzeResults st).failedResults =
    st.failedResults.map (removeDuplicateCompanies st.store) := rfl

theorem process_all_eq (st : PState) : (processSmartAnalyzeResults st).allResults =
    st.allResults.map (removeDuplicateCompanies st.store) := rfl

theorem merge_succ_eq (best : PState) (srefs : List Nat) (ns sf : List Company) :
    (mergeRetryResults best srefs ns sf).successfulResults =
      some (srefs ++ (List.range ns.length).map (fun i => i + best.store.length)) := rfl

theorem merge_fail_eq (best : PState) (srefs : List Nat) (ns sf : List Company) :
    (mergeRetryResults best srefs ns sf).failedResults =
      some ((List.range sf.length).map (fun i => i + (best.store.length + ns.length))) := rfl

theorem merge_all_eq (best : PState) (srefs : List Nat) (ns sf : List Company) :
    (mergeRetryResults best srefs ns sf).allResults =
      some ((srefs ++ (List.range ns.length).map (fun i => i + best.store.length)) ++
        (List.range sf.length).map (fun i => i + (best.store.length + ns.length))) := rfl

/-- With at least one recovered company the phase always produces a result
(the processor keeps the summary and the three arrays present). -/
theorem individualRetryPhase_ok_of_recovered
    (fetch : Option String → Except String (Option (List Driver)))
    (best : PState) (s : Summary) (srefs frefs : List Nat)
    (hs : best.summary = some s)
    (hsr : best.successfulResults = some srefs)
    (hfr : best.failedResults = some frefs)
    (hlen : ((individualRetryGo fetch best.store frefs).filter
      (fun c => c.status == CStatus.success)).length > 0) :
    ∃ res, individualRetryPhase fetch best = .ok res := by
  obtain ⟨s1, h1, _⟩ := process_summary_isSome
    (mergeRetryResults best srefs
      ((individualRetryGo fetch best.store frefs).filter
        (fun c => c.status == CStatus.success))
      ((individualRetryGo fetch best.store frefs).filter
        (fun c => c.status == CStatus.failed))) s hs
  rcases hE : individualRetryPhase fetch best with e | res
  · exfalso
    unfold individualRetryPhase at hE
    simp only [hfr] at hE
    rw [if_pos hlen] at hE
    simp only [hsr, h1, process_succ_eq, process_fail_eq, process_all_eq,
      merge_succ_eq, merge_fail_eq, merge_all_eq, Option.map_some] at hE
    exact Except.noConfusion hE
  · exact ⟨res, rfl⟩

/-- Well-formedness of an attempt's batch result, as produced by the batch
pipeline on a roster with distinct, non-empty entity ids: summary and the
result arrays are present, the failed count matches the failure list, every
listed failure carries an error, and the referenced ids are truthy and
pairwise distinct. -/
def PipelineWF (r : PState) : Prop :=
  ∃ s srefs frefs, r.summary = some s ∧ r.successfulResults = some srefs ∧
    r.failedResults = some frefs ∧ s.failed = frefs.length ∧
    (∀ x ∈ frefs, (getCompany r.store x).error.isSome = true) ∧
    (∀ v ∈ idsAt r.store (srefs ++ frefs), truthy v = true) ∧
    (idsAt r.store (srefs ++ frefs)).Nodup

/-- The shape claimed for every non-thrown return of the orchestrator: a
summary with a failed count equal to the length of the failure list, and an
error message on each listed failure. -/
def itemizedFailureReport (r : PState) : Prop :=
  ∃ s, r.summary = some s ∧ ∃ frefs, r.failedResults = some frefs ∧
    s.failed = frefs.length ∧
    ∀ x ∈ frefs, (getCompany r.store x).error.isSome = true

/-- On a well-formed best result the individual-retry phase cannot throw,
and its result itemizes the remaining failures. -/
theorem individualRetryPhase_good
    (fetch : Option String → Except String (Option (List Driver)))
    (b : PState) (hW : PipelineWF b) :
    ∃ b2, individualRetryPhase fetch b = .ok b2 ∧ itemizedFailureReport b2 := by
  obtain ⟨s, srefs, frefs, hsum, hsr, hfr, hfc, herr, hids, hnd⟩ := hW
  by_cases hz : (individualRetryGo fetch b.store frefs).filter
      (fun c => c.status == CStatus.success) = []
  · exact ⟨b, individualRetryPhase_zero fetch b frefs hfr hz,
      s, hsum, frefs, hfr, hfc, herr⟩
  · obtain ⟨res, hres⟩ := individualRetryPhase_ok_of_recovered fetch b s srefs frefs
      hsum hsr hfr (List.length_pos_of_ne_nil hz)
    obtain ⟨srefs1, frefs1, _, h2, _, _, _, _, herr7, _, s1, hsum1, _, hfa, _, hps⟩ :=
      individualRetryPhase_merge fetch b s srefs frefs hsum hsr hfr hids hnd hz res hres
    refine ⟨res, hres, s1, hsum1, frefs1, h2, hfa, ?_⟩
    intro x hx
    have hmem : (getCompany res.store x).error ∈
        frefs1.map (fun r => (getCompany res.store r).error) :=
      List.mem_map_of_mem _ hx
    rw [herr7] at hmem
    obtain ⟨c, hc, hceq⟩ := List.mem_map.mp hmem
    rw [← hceq]
    have hcf := List.mem_filter.mp hc
    exact individualRetryGo_failed_error fetch b.store frefs c hcf.1
      (by simpa using hcf.2)

/-- Once a best result is retained, the phase-1 loop can no longer throw:
it finishes with some retained well-formed best result. -/
theorem phase1Go_some (pipeline : Nat → Except String PState)
    (hwf : ∀ k r, pipeline k = .ok r → PipelineWF r) :
    ∀ fuel a (b : PState), PipelineWF b →
      ∃ b1 a1, phase1Go pipeline fuel a (some b) = .done (some b1) a1 ∧ PipelineWF b1 := by
  intro fuel
  induction fuel with
  | zero => intro a b hb; exact ⟨b, a, rfl, hb⟩
  | succ rem ih =>
    intro a b hb
    have hb2 := hb
    obtain ⟨sb, bsrefs, bfrefs, hbsum, -, -, -, -, -, -⟩ := hb2
    rcases hp : pipeline (a + 1) with e | r
    · simp only [phase1Go, hp, Option.isNone_some, Bool.false_eq_true, if_false]
      exact ih (a + 1) b hb
    · have hWr := hwf (a + 1) r hp
      have hWr2 := hWr
      obtain ⟨sr, rsrefs, rfrefs, hrsum, -, -, -, -, -, -⟩ := hWr2
      simp only [phase1Go, hp, hrsum, hbsum]
      have hkb : ∃ c, keepBetter (some b) r = some c ∧ PipelineWF c := by
        simp only [keepBetter, hrsum, hbsum]
        by_cases h2 : sr.successful > sb.successful
        · rw [if_pos h2]
          exact ⟨r, rfl, hWr⟩
        · rw [if_neg h2]
          exact ⟨b, rfl, hb⟩
      obtain ⟨c, hc, hcW⟩ := hkb
      rw [hc]
      by_cases h3 : (sr.failed == 0) = true
      · rw [if_pos h3]
        exact ⟨c, a + 1, rfl, hcW⟩
      · rw [if_neg h3]
        exact ih (a + 1) c hcW

/-! ## C3: individual-retry completion -/

def bestC3 : PState :=
  { summary := some ⟨2, 1, 1, none, none⟩,
    successfulResults := some [0], failedResults := some [1],
    allResults := some [0, 1],
    store := [⟨.success, some "CompA", some "A", some [], none⟩,
              ⟨.failed, some "CompB", some "B", none, some "E1"⟩] }

def fetchC3 : Option String → Except String (Option (List Driver)) :=
  fun _ => .error "E2"

/-- Counterexample to C3's "including in the case where zero entities were
recovered" (retry lines 139-169): when every individual retry fails again,
the guard `if (newSuccesses.length > 0)` skips the whole merge block, so
the phase returns the retained best result unchanged — the continued
failure keeps the error of its original batch attempt (`"E1"`), not the
error of its last individual retry (`"E2"`), and the Reduction Pipeline is
not re-run over the batch (`processingStats` stays absent). -/
theorem retry_zero_recovery_keeps_old_state :
    individualRetryPhase fetchC3 bestC3 = Except.ok bestC3 ∧
    (okOr (individualRetryPhase fetchC3 bestC3) emptyPState).failedResults = some [1] ∧
    (getCompany (okOr (individualRetryPhase fetchC3 bestC3) emptyPState).store 1).error =
      some "E1" ∧
    ¬ (getCompany (okOr (individualRetryPhase fetchC3 bestC3) emptyPState).store 1).error =
      some "E2" ∧
    ((okOr (individualRetryPhase fetchC3 bestC3) emptyPState).summary.map
      (fun s => s.processingStats)) = some none :=
  ⟨rfl, by decide, by decide, by decide, by decide⟩

/-- C3 (amended): when the individual-retry phase runs there are two cases.
With zero recovered entities the merge and the re-processing are skipped and
the retained best result is returned unchanged, so each continued failure
keeps the error of its original batch attempt.  With at least one recovered
entity, the recovered successes are appended to the success list, the
failure list is recomputed to exactly the still-failing retry records — each
carrying the error of its last (individual-retry) attempt — `allResults`
is rebuilt as the concatenation of the two, and the Reduction Pipeline is
re-run over the merged batch (a fresh `processingStats` is attached). -/
theorem individual_retry_completion
    (fetch : Option String → Except String (Option (List Driver)))
    (best : PState) (s : Summary) (srefs frefs : List Nat)
    (hs : best.summary = some s)
    (hsr : best.successfulResults = some srefs)
    (hfr : best.failedResults = some frefs)
    (hids : ∀ v ∈ idsAt best.store (srefs ++ frefs), truthy v = true)
    (hnd : (idsAt best.store (srefs ++ frefs)).Nodup) :
    ((individualRetryGo fetch best.store frefs).filter
        (fun c => c.status == CStatus.success) = [] →
      individualRetryPhase fetch best = Except.ok best) ∧
    ∀ res, (individualRetryGo fetch best.store frefs).filter
        (fun c => c.status == CStatus.success) ≠ [] →
      individualRetryPhase fetch best = .ok res →
      ∃ srefs1 frefs1,
        res.successfulResults = some srefs1 ∧ res.failedResults = some frefs1 ∧
        res.allResults = some (srefs1 ++ frefs1) ∧
        idsAt res.store srefs1 = idsAt best.store srefs ++
          ((individualRetryGo fetch best.store frefs).filter
            (fun c => c.status == CStatus.success)).map (fun c => c.companyId) ∧
        idsAt res.store frefs1 = ((individualRetryGo fetch best.store frefs).filter
          (fun c => c.status == CStatus.failed)).map (fun c => c.companyId) ∧
        frefs1.map (fun r => (getCompany res.store r).error) =
          ((individualRetryGo fetch best.store frefs).filter
            (fun c => c.status == CStatus.failed)).map (fun c => c.error) ∧
        ∃ s1, res.summary = some s1 ∧ s1.processingStats.isSome = true := by
  constructor
  · intro hz
    exact individualRetryPhase_zero fetch best frefs hfr hz
  · intro res hrec hres
    obtain ⟨srefs1, frefs1, h1, h2, h3, -, h5, h6, h7, -, s1, hsum, -, -, -, hps⟩ :=
      individualRetryPhase_merge fetch best s srefs frefs hs hsr hfr hids hnd hrec res hres
    exact ⟨srefs1, frefs1, h1, h2, h3, h5, h6, h7, s1, hsum, hps⟩

def fetchC3w : Option String → Except String (Option (List Driver)) :=
  fun v => if v = some "B" then .ok (some []) else .error "E2"

/-- Witness for C3: company `"B"` recovers on its individual retry; the
merged result rebuilds `allResults` as success list ++ failure list and the
(now empty) failure list matches the still-failing retry records. -/
theorem individual_retry_completion_witness :
    ∃ srefs1 frefs1,
      (okOr (individualRetryPhase fetchC3w bestC3) emptyPState).allResults =
        some (srefs1 ++ frefs1) ∧
      idsAt (okOr (individualRetryPhase fetchC3w bestC3) emptyPState).store frefs1 =
        ((individualRetryGo fetchC3w bestC3.store [1]).filter
          (fun c => c.status == CStatus.failed)).map (fun c => c.companyId) := by
  obtain ⟨srefs1, frefs1, -, -, h3, -, h6, -, -, -, -⟩ :=
    (individual_retry_completion fetchC3w bestC3 ⟨2, 1, 1, none, none⟩ [0] [1]
      (by decide) (by decide) (by decide) (by decide) (by decide)).2
      (okOr (individualRetryPhase fetchC3w bestC3) emptyPState) (by decide) (by rfl)
  exact ⟨srefs1, frefs1, h3, h6⟩

/-! ## C7: no entity duplication after the retry merge -/

/-- C7: after the individual-retry merge, the rebuilt `allResults` has
exactly one record per roster entity — its length equals the roster size
when the roster's entity ids are distinct and non-empty — and no entity id
appears in both the success list and the failure list. -/
theorem no_duplication_after_merge
    (fetch : Option String → Except String (Option (List Driver)))
    (best : PState) (s : Summary) (srefs frefs : List Nat)
    (roster : List RosterEntry)
    (hs : best.summary = some s)
    (hsr : best.successfulResults = some srefs)
    (hfr : best.failedResults = some frefs)
    (hros : idsAt best.store (srefs ++ frefs) = roster.map (fun e => some e.id))
    (hdistinct : (roster.map (fun e => e.id)).Nodup)
    (hne : ∀ e ∈ roster, e.id ≠ "")
    (res : PState)
    (hrec : (individualRetryGo fetch best.store frefs).filter
      (fun c => c.status == CStatus.success) ≠ [])
    (hres : individualRetryPhase fetch best = .ok res) :
    ∃ srefs1 frefs1,
      res.successfulResults = some srefs1 ∧ res.failedResults = some frefs1 ∧
      res.allResults = some (srefs1 ++ frefs1) ∧
      (srefs1 ++ frefs1).length = roster.length ∧
      (idsAt res.store srefs1).Disjoint (idsAt res.store frefs1) := by
  have hids : ∀ v ∈ idsAt best.store (srefs ++ frefs), truthy v = true := by
    intro v hv
    rw [hros] at hv
    obtain ⟨e, he, hveq⟩ := List.mem_map.mp hv
    rw [← hveq]
    simp only [truthy, decide_eq_true_eq]
    exact hne e he
  have hnd : (idsAt best.store (srefs ++ frefs)).Nodup := by
    rw [hros, show (roster.map fun e => some e.id) =
      (roster.map fun e => e.id).map some from by rw [List.map_map]; rfl]
    exact hdistinct.map (Option.some_injective String)
  obtain ⟨srefs1, frefs1, h1, h2, h3, hlen, -, -, -, hdisj, -⟩ :=
    individualRetryPhase_merge fetch best s srefs frefs hs hsr hfr hids hnd hrec res hres
  refine ⟨srefs1, frefs1, h1, h2, h3, ?_, hdisj⟩
  rw [hlen]
  have hcl := congrArg List.length hros
  simp only [idsAt, List.length_map] at hcl
  exact hcl

def rosterC7 : List RosterEntry := [⟨"A", "CompA"⟩, ⟨"B", "CompB"⟩]

/-- Witness for C7: a two-entity roster where the failed entity recovers on
its individual retry; the merged `allResults` still has exactly two records
and the success/failure id sets are disjoint. -/
theorem no_duplication_after_merge_witness :
    ∃ srefs1 frefs1,
      (okOr (individualRetryPhase fetchC3w bestC3) emptyPState).allResults =
        some (srefs1 ++ frefs1) ∧
      (srefs1 ++ frefs1).length = rosterC7.length ∧
      (idsAt (okOr (individualRetryPhase fetchC3w bestC3) emptyPState).store srefs1).Disjoint
        (idsAt (okOr (individualRetryPhase fetchC3w bestC3) emptyPState).store frefs1) := by
  obtain ⟨srefs1, frefs1, -, -, h3, h4, h5⟩ :=
    no_duplication_after_merge fetchC3w bestC3 ⟨2, 1, 1, none, none⟩ [0] [1] rosterC7
      (by decide) (by decide) (by decide) (by decide) (by decide) (by decide)
      (okOr (individualRetryPhase fetchC3w bestC3) emptyPState) (by decide) (by rfl)
  exact ⟨srefs1, frefs1, h3, h4, h5⟩

/-! ## C4: error propagation of a whole run -/

/-- C4: the orchestrator throws exactly when the very first batch attempt
throws (before any best result is retained); in every other execution it
returns a batch result whose summary carries a failed count equal to the
length of the failure list and whose failure list itemizes each unrecovered
entity with an error message — no still-failing entity is silently
dropped.  Each attempt's batch result is assumed well-formed
(`PipelineWF`), as the batch pipeline produces on a roster with distinct
non-empty entity ids. -/
theorem error_propagation_whole_run
    (pipeline : Nat → Except String PState)
    (fetch : Option String → Except String (Option (List Driver)))
    (opts : RetryOptions)
    (hmax : 1 ≤ opts.maxRetries)
    (hwf : ∀ k r, pipeline k = .ok r → PipelineWF r) :
    (∀ e, runOriginAnalysisWithRetry pipeline fetch opts = .error e ↔
      pipeline 1 = .error e) ∧
    ∀ res, runOriginAnalysisWithRetry pipeline fetch opts = .ok res →
      itemizedFailureReport res := by
  obtain ⟨rem, hrem⟩ : ∃ rem, opts.maxRetries = rem + 1 :=
    ⟨opts.maxRetries - 1, by omega⟩
  rcases hp1 : pipeline 1 with e0 | r0
  · -- the very first attempt throws with no retained best result: fatal
    have hrun : runOriginAnalysisWithRetry pipeline fetch opts = .error e0 := by
      unfold runOriginAnalysisWithRetry
      rw [hrem]
      simp [phase1Go, hp1]
    refine ⟨fun e => ⟨fun h => ?_, fun h => ?_⟩, fun res h => ?_⟩
    · exact hrun.symm.trans h
    · exact hrun.trans h
    · rw [hrun] at h
      exact Except.noConfusion h
  · -- the first attempt produced a result: no later throw is possible
    have hWr := hwf 1 r0 hp1
    have hph : ∃ b a1, phase1Go pipeline opts.maxRetries 0 none =
        .done (some b) a1 ∧ PipelineWF b := by
      have hWr2 := hWr
      obtain ⟨sr, rsrefs, rfrefs, hrsum, -, -, -, -, -, -⟩ := hWr2
      rw [hrem]
      have hp1' : pipeline (0 + 1) = .ok r0 := by rw [Nat.zero_add]; exact hp1
      simp only [phase1Go, hp1', keepBetter, hrsum]
      by_cases h0 : (sr.failed == 0) = true
      · rw [if_pos h0]
        exact ⟨r0, 0 + 1, rfl, hWr⟩
      · rw [if_neg h0]
        exact phase1Go_some pipeline hwf rem (0 + 1) r0 hWr
    obtain ⟨b, a1, hdone, hWb⟩ := hph
    have hWb2 := hWb
    obtain ⟨sb, bsrefs, bfrefs, hbsum, -, hbfr, hbfc, hberr, -, -⟩ := hWb2
    have hap : ∃ b2, (if opts.retryFailedIndividually then
          match b.summary with
          | none => Except.error "TypeError"
          | some s =>
            if s.failed > 0 then individualRetryPhase fetch b else Except.ok b
        else Except.ok b) = Except.ok b2 ∧ itemizedFailureReport b2 := by
      by_cases hflag : opts.retryFailedIndividually = true
      · rw [if_pos hflag]
        simp only [hbsum]
        by_cases hf0 : sb.failed > 0
        · rw [if_pos hf0]
          exact individualRetryPhase_good fetch b hWb
        · rw [if_neg hf0]
          exact ⟨b, rfl, sb, hbsum, bfrefs, hbfr, hbfc, hberr⟩
      · rw [if_neg hflag]
        exact ⟨b, rfl, sb, hbsum, bfrefs, hbfr, hbfc, hberr⟩
    obtain ⟨b2, hb2, hgood⟩ := hap
    obtain ⟨s2, hs2, frefs2, hfr2, hfc2, herr2⟩ := hgood
    have hrun : runOriginAnalysisWithRetry pipeline fetch opts =
        .ok { b2 with summary := some (
          { s2 with retryMetadata := some (
            { totalAttempts := a1, maxRetries := opts.maxRetries,
              individualRetryUsed := opts.retryFailedIndividually } : RetryMetadata) } : Summary) } := by
      unfold runOriginAnalysisWithRetry
      simp only [hdone]
      rw [hb2]
      simp only [hs2]
    refine ⟨fun e => ⟨fun h => ?_, fun h => ?_⟩, fun res h => ?_⟩
    · rw [hrun] at h
      exact Except.noConfusion h
    · exact Except.noConfusion h
    · have he := hrun.symm.trans h
      injection he with he1
      rw [← he1]
      exact ⟨_, rfl, frefs2, hfr2, hfc2, herr2⟩

def pipelineC4 : Nat → Except String PState :=
  fun k => if k = 1 then .ok bestC3 else .error "boom"

def optsC4 : RetryOptions := ⟨1, true⟩

/-- Witness for C4: the first attempt returns a result with one failure and
every later attempt (batch or individual) throws; the run does not throw
— it returns a result whose failure list itemizes the unrecovered entity
with its error. -/
theorem error_propagation_whole_run_witness :
    (runOriginAnalysisWithRetry pipelineC4 fetchC3 optsC4 = .error "boom" ↔
      pipelineC4 1 = .error "boom") ∧
    itemizedFailureReport
      (okOr (runOriginAnalysisWithRetry pipelineC4 fetchC3 optsC4) emptyPState) := by
  have h := error_propagation_whole_run pipelineC4 fetchC3 optsC4 (by decide) (by
    intro k r hkr
    unfold pipelineC4 at hkr
    by_cases hk : k = 1
    · rw [if_pos hk] at hkr
      injection hkr with h1
      rw [← h1]
      exact ⟨⟨2, 1, 1, none, none⟩, [0], [1], by decide, by decide, by decide,
        by decide, by decide, by decide, by decide⟩
    · rw [if_neg hk] at hkr
      exact Except.noConfusion hkr)
  exact ⟨h.1 "boom", h.2 _ (by rfl)⟩

end Napo
